import Mathlib

/-!
Formal model of the tinyclaw memory retrieval engine (`src/lib/memory.ts`).

Strings are modelled as lists of characters (`List Char`) and JavaScript
numbers as exact rationals (`ℚ`).  External effects (child processes, the
file system, `Date.now`) are modelled by explicit environment records that
are passed to the functions that use them; a rejected promise / thrown
exception is modelled by `Except`.
-/

set_option maxRecDepth 100000

namespace TC

/-- Convert a Lean string literal to the character-list representation used
throughout the development. -/
def lstr (s : String) : List Char := s.data

/-- The JavaScript whitespace class: the characters matched by `\s` and
stripped by `String.prototype.trim` (the common members). -/
def isJsWs (c : Char) : Bool :=
  c = ' ' || c = '\t' || c = '\n' || c = '\r' || c = '\x0b' || c = '\x0c' ||
  c = '\u00A0' || c = '\u2028' || c = '\u2029' || c = '\u3000' || c = '\uFEFF'

/-- `String.prototype.trim`: drop leading and trailing whitespace. -/
def trimChars (s : List Char) : List Char :=
  ((s.dropWhile isJsWs).reverse.dropWhile isJsWs).reverse

/-- Helper for `collapseWs`: `inRun` records whether the previous character
was whitespace (so that a maximal whitespace run emits one single space). -/
def collapseAux : Bool → List Char → List Char
  | _, [] => []
  | inRun, c :: rest =>
    if isJsWs c then
      if inRun then collapseAux true rest else ' ' :: collapseAux true rest
    else c :: collapseAux false rest

/-- `text.replace(/\s+/g, ' ')`: every maximal whitespace run becomes one space. -/
def collapseWs (s : List Char) : List Char := collapseAux false s

/-- A JavaScript value as it can appear in a settings field. -/
inductive JsVal where
  | undef
  | null
  | bool (b : Bool)
  | num (q : ℚ)
  | nan
  | inf
  | ninf
  | str (s : List Char)
deriving DecidableEq

/-- `Number.isFinite`: true exactly for finite numbers. -/
def JsVal.isFiniteNum : JsVal → Bool
  | .num _ => true
  | _ => false

/-- `Number(x)`.  In `memory.ts` this is only applied under a
`Number.isFinite` guard, so only the `num` case is ever reached. -/
def JsVal.toNumber : JsVal → ℚ
  | .num q => q
  | _ => 0

/-- `x === true`. -/
def JsVal.eqTrue : JsVal → Bool
  | .bool true => true
  | _ => false

/-- `x !== false`. -/
def JsVal.neFalse : JsVal → Bool
  | .bool false => false
  | _ => true

/-- The raw `settings.memory.qmd` object: every field is an arbitrary
JavaScript value (absent fields are `undef`). -/
structure QmdSettingsRaw where
  enabled : JsVal
  command : JsVal
  top_k : JsVal
  min_score : JsVal
  max_chars : JsVal
  update_interval_seconds : JsVal
  use_semantic_search : JsVal
  disable_query_expansion : JsVal
  allow_unsafe_vsearch : JsVal
  quick_precheck_enabled : JsVal
  precheck_timeout_ms : JsVal
  search_timeout_ms : JsVal
  vector_search_timeout_ms : JsVal
  debug_logging : JsVal

/-- The raw `settings.memory` object. -/
structure MemorySettingsRaw where
  enabled : JsVal
  qmd : Option QmdSettingsRaw

/-- The part of the `Settings` object read by the memory engine. -/
structure Settings where
  memory : Option MemorySettingsRaw

def DEFAULT_TOP_K : ℚ := 4
def DEFAULT_MIN_SCORE : ℚ := 0
def DEFAULT_MAX_CHARS : ℚ := 2500
def DEFAULT_UPDATE_INTERVAL_SECONDS : ℚ := 120
def DEFAULT_PRECHECK_TIMEOUT_MS : ℚ := 800
def DEFAULT_TEXT_SEARCH_TIMEOUT_MS : ℚ := 3000
def DEFAULT_VECTOR_SEARCH_TIMEOUT_MS : ℚ := 10000

/-- The resolved memory configuration (`interface QmdConfig`). -/
structure QmdConfig where
  enabled : Bool
  command : Option (List Char)
  topK : ℚ
  minScore : ℚ
  maxChars : ℚ
  updateIntervalSeconds : ℚ
  useSemanticSearch : Bool
  disableQueryExpansion : Bool
  allowUnsafeVsearch : Bool
  quickPrecheckEnabled : Bool
  precheckTimeoutMs : ℚ
  searchTimeoutMs : ℚ
  vectorSearchTimeoutMs : ℚ
  debugLogging : Bool

/-- `getQmdConfig(settings)` (memory.ts:70-97). -/
def getQmdConfig (settings : Settings) : QmdConfig :=
  let memoryCfg := settings.memory.bind (·.qmd)
  let fld := fun (f : QmdSettingsRaw → JsVal) =>
    match memoryCfg with
    | some q => f q
    | none => JsVal.undef
  let command := match fld (·.command) with
    | JsVal.str c => trimChars c
    | _ => []
  { enabled :=
      (match settings.memory with
        | some mem => mem.enabled.eqTrue
        | none => false) && (fld (·.enabled)).neFalse
    command := if command = [] then none else some command
    topK := if (fld (·.top_k)).isFiniteNum then
        max 1 (fld (·.top_k)).toNumber else DEFAULT_TOP_K
    minScore := if (fld (·.min_score)).isFiniteNum then
        (fld (·.min_score)).toNumber else DEFAULT_MIN_SCORE
    maxChars := if (fld (·.max_chars)).isFiniteNum then
        max 500 (fld (·.max_chars)).toNumber else DEFAULT_MAX_CHARS
    updateIntervalSeconds := if (fld (·.update_interval_seconds)).isFiniteNum then
        max 10 (fld (·.update_interval_seconds)).toNumber else DEFAULT_UPDATE_INTERVAL_SECONDS
    useSemanticSearch := (fld (·.use_semantic_search)).eqTrue
    disableQueryExpansion := (fld (·.disable_query_expansion)).neFalse
    allowUnsafeVsearch := (fld (·.allow_unsafe_vsearch)).eqTrue
    quickPrecheckEnabled := (fld (·.quick_precheck_enabled)).neFalse
    precheckTimeoutMs := if (fld (·.precheck_timeout_ms)).isFiniteNum then
        max 100 (fld (·.precheck_timeout_ms)).toNumber else DEFAULT_PRECHECK_TIMEOUT_MS
    searchTimeoutMs := if (fld (·.search_timeout_ms)).isFiniteNum then
        max 500 (fld (·.search_timeout_ms)).toNumber else DEFAULT_TEXT_SEARCH_TIMEOUT_MS
    vectorSearchTimeoutMs := if (fld (·.vector_search_timeout_ms)).isFiniteNum then
        max 1000 (fld (·.vector_search_timeout_ms)).toNumber else DEFAULT_VECTOR_SEARCH_TIMEOUT_MS
    debugLogging := (fld (·.debug_logging)).eqTrue }

/-- The channels for which memory is used (`MEMORY_CHANNELS`). -/
def shouldUseMemoryForChannel (channel : List Char) : Bool :=
  channel = lstr "telegram" || channel = lstr "discord" || channel = lstr "whatsapp"

/-- The result of `resolveRetrievalMode`. -/
structure RetrievalMode where
  useVsearch : Bool
  label : List Char

/-- `resolveRetrievalMode(qmdCfg)` (memory.ts:473-495).  The process-wide
`isDisableExpansionSupported()` probe result is passed in as
`disableExpansionSupported`; the warn-once logging has no effect on the
returned value and is omitted. -/
def resolveRetrievalMode (qmdCfg : QmdConfig) (disableExpansionSupported : Bool) :
    RetrievalMode :=
  let useVsearch0 := qmdCfg.useSemanticSearch
  let useVsearch :=
    if useVsearch0 && !qmdCfg.allowUnsafeVsearch then
      if !qmdCfg.disableQueryExpansion then false
      else if !disableExpansionSupported then false
      else useVsearch0
    else useVsearch0
  { useVsearch := useVsearch
    label := if useVsearch then lstr "qmd-vsearch" else lstr "qmd-bm25" }

/-- C2: retrieval mode selection is exactly the stated policy: vector search
is chosen if and only if semantic search is enabled and either the
unsafe-override flag is set, or query-expansion disabling is configured and
the resolved backend supports suppressing expansion.  The four particular
scenarios of the claim are instances of this Boolean identity. -/
theorem resolveRetrievalMode_policy (cfg : QmdConfig) (sup : Bool) :
    (resolveRetrievalMode cfg sup).useVsearch =
      (cfg.useSemanticSearch &&
        (cfg.allowUnsafeVsearch || (cfg.disableQueryExpansion && sup))) := by
  rcases cfg with ⟨e, c, tk, ms, mc, ui, sem, dq, un, qp, pt, st, vt, dl⟩
  cases sem <;> cases un <;> cases dq <;> cases sup <;> rfl

/-! ### Variant generator (`buildLexicalQueryVariants`, memory.ts:271-304) -/

/-- The characters of the punctuation class `[?？!！,，.。;；:：]`. -/
def isQmdPunct (c : Char) : Bool :=
  c = '?' || c = '？' || c = '!' || c = '！' || c = ',' || c = '，' ||
  c = '.' || c = '。' || c = ';' || c = '；' || c = ':' || c = '：'

/-- ASCII word characters, the class `\w` used by the `\b` boundary
(`[A-Za-z0-9_]`). -/
def isWordChar (c : Char) : Bool :=
  c.isLower || c.isUpper || c.isDigit || c = '_'

/-- Lower-case an ASCII letter (models `toLowerCase` on the ASCII range). -/
def asciiLower (c : Char) : Char :=
  if 'A' ≤ c && c ≤ 'Z' then Char.ofNat (c.toNat + 32) else c

/-- Global replacement of an ordered alternation of literal patterns by a
single space: scan left to right, at each position try the alternatives in
order (JavaScript alternation is leftmost-alternative-first) and replace the
first match.  `fuel` only serves totality; every call site passes the input
length, which suffices because each step consumes at least one character. -/
def replaceAltsAux (alts : List (List Char)) : Nat → List Char → List Char
  | 0, s => s
  | _ + 1, [] => []
  | fuel + 1, c :: rest =>
    match alts.find? (fun a => !a.isEmpty && a.isPrefixOf (c :: rest)) with
    | some a => ' ' :: replaceAltsAux alts fuel ((c :: rest).drop a.length)
    | none => c :: replaceAltsAux alts fuel rest

/-- `text.replace(/alt1|alt2|.../g, ' ')` for literal alternatives. -/
def replaceAlts (alts : List (List Char)) (s : List Char) : List Char :=
  replaceAltsAux alts s.length s

/-- Global case-insensitive replacement of `\b(w1|w2|...)\b` by a space.
`prev` is the character before the current position (for the left word
boundary); the right boundary requires the character after the match, if
any, to be a non-word character. -/
def replaceWordAltsAux (alts : List (List Char)) :
    Nat → Option Char → List Char → List Char
  | 0, _, s => s
  | _ + 1, _, [] => []
  | fuel + 1, prev, c :: rest =>
    let boundaryBefore := match prev with
      | none => true
      | some p => !isWordChar p
    match (if boundaryBefore then
        alts.find? (fun a =>
          (((c :: rest).take a.length).map asciiLower == a) &&
          (match ((c :: rest).drop a.length).head? with
            | none => true
            | some d => !isWordChar d))
      else none) with
    | some a =>
      ' ' :: replaceWordAltsAux alts fuel (((c :: rest).take a.length).getLast?)
        ((c :: rest).drop a.length)
    | none => c :: replaceWordAltsAux alts fuel (some c) rest

/-- `text.replace(/\b(w1|w2|...)\b/gi, ' ')` for lower-case literal words. -/
def replaceWordAlts (alts : List (List Char)) (s : List Char) : List Char :=
  replaceWordAltsAux alts s.length none s

/-- The Chinese question-particle alternatives, in the order of the source
regex `/是什么|是啥|什么|多少|几点|哪里|哪儿|哪个|哪位|谁|吗|呢|来着/g`. -/
def zhParticles : List (List Char) :=
  [lstr "是什么", lstr "是啥", lstr "什么", lstr "多少", lstr "几点",
   lstr "哪里", lstr "哪儿", lstr "哪个", lstr "哪位", lstr "谁",
   lstr "吗", lstr "呢", lstr "来着"]

/-- The English question words of `/\b(what|which|who|where|when|why|how)\b/gi`. -/
def enQuestionWords : List (List Char) :=
  [lstr "what", lstr "which", lstr "who", lstr "where", lstr "when",
   lstr "why", lstr "how"]

/-- The cleaning step of the local `push` helper:
`value.trim().replace(/\s+/g, ' ')`. -/
def cleanVariant (value : List Char) : List Char := collapseWs (trimChars value)

/-- The local `push` helper of `buildLexicalQueryVariants`: clean the value,
discard it when empty or already present, otherwise append it. -/
def pushVariant (variants : List (List Char)) (value : List Char) :
    List (List Char) :=
  if cleanVariant value = [] then variants
  else if cleanVariant value ∈ variants then variants
  else variants ++ [cleanVariant value]

/-- `buildLexicalQueryVariants(message)` (memory.ts:271-304). -/
def buildLexicalQueryVariants (message : List Char) : List (List Char) :=
  let variants1 := pushVariant [] message
  let noPunct := message.map (fun c => if isQmdPunct c then ' ' else c)
  let variants2 := pushVariant variants1 noPunct
  let zhSimplified := collapseWs (replaceAlts zhParticles noPunct)
  let variants3 := pushVariant variants2 zhSimplified
  let enSimplified := collapseWs (replaceWordAlts enQuestionWords noPunct)
  let variants4 := pushVariant variants3 enSimplified
  pushVariant variants4 (noPunct.map (fun c => if c = '-' then ' ' else c))

lemma dropWhile_head_false {p : Char → Bool} :
    ∀ {l : List Char} {c : Char} {t : List Char},
      l.dropWhile p = c :: t → p c = false := by
  intro l
  induction l with
  | nil => intro c t h; simp [List.dropWhile] at h
  | cons a l ih =>
    intro c t h
    rw [List.dropWhile_cons] at h
    by_cases hp : p a
    · simp only [hp, if_true] at h; exact ih h
    · simp only [hp, if_false] at h
      cases h
      simpa using hp

lemma dropWhile_cons_of_neg {p : Char → Bool} {c : Char} (h : p c = false)
    (t : List Char) : (c :: t).dropWhile p = c :: t := by
  rw [List.dropWhile_cons, h]; simp

/-- The head of a nonempty trimmed string is not whitespace. -/
lemma trimChars_head_false {v : List Char} {c : Char} {t : List Char}
    (h : trimChars v = c :: t) : isJsWs c = false := by
  unfold trimChars at h
  have hBne : (v.dropWhile isJsWs).reverse.dropWhile isJsWs ≠ [] := by
    intro h0
    rw [h0] at h
    simp at h
  have h1 : ((v.dropWhile isJsWs).reverse.dropWhile isJsWs).getLast? = some c := by
    rw [← List.head?_reverse, h]
    rfl
  obtain ⟨u, hu⟩ := List.dropWhile_suffix (l := (v.dropWhile isJsWs).reverse) isJsWs
  have h2 : (v.dropWhile isJsWs).reverse.getLast? = some c := by
    rw [← hu, List.getLast?_append_of_ne_nil _ hBne]
    exact h1
  rw [List.getLast?_reverse] at h2
  cases hA2 : v.dropWhile isJsWs with
  | nil => rw [hA2] at h2; simp at h2
  | cons x xs =>
    rw [hA2] at h2
    simp only [List.head?_cons, Option.some_inj] at h2
    subst h2
    exact dropWhile_head_false hA2

/-- The last character of a nonempty trimmed string is not whitespace. -/
lemma trimChars_getLast_false {v : List Char} {c : Char}
    (h : (trimChars v).getLast? = some c) : isJsWs c = false := by
  unfold trimChars at h
  rw [List.getLast?_reverse] at h
  cases hB : (v.dropWhile isJsWs).reverse.dropWhile isJsWs with
  | nil => rw [hB] at h; simp at h
  | cons x xs =>
    rw [hB] at h
    simp only [List.head?_cons, Option.some_inj] at h
    subst h
    exact dropWhile_head_false hB

lemma collapseAux_cons_of_neg {c : Char} (h : isJsWs c = false) (b : Bool)
    (t : List Char) : collapseAux b (c :: t) = c :: collapseAux false t := by
  simp [collapseAux, h]

/-- `collapseAux` keeps a non-whitespace final character in final position. -/
lemma collapseAux_append_last {c : Char} (h : isJsWs c = false) :
    ∀ (s : List Char) (b : Bool), ∃ p, collapseAux b (s ++ [c]) = p ++ [c] := by
  intro s
  induction s with
  | nil =>
    intro b
    refine ⟨[], ?_⟩
    simp [collapseAux, h]
  | cons d s ih =>
    intro b
    by_cases hd : isJsWs d
    · by_cases hb : b
      · obtain ⟨p, hp⟩ := ih true
        subst hb
        exact ⟨p, by simpa [collapseAux, hd] using hp⟩
      · obtain ⟨p, hp⟩ := ih true
        have hb' : b = false := by simpa using hb
        subst hb'
        exact ⟨' ' :: p, by simp [collapseAux, hd, hp]⟩
    · obtain ⟨p, hp⟩ := ih false
      have hd' : isJsWs d = false := by simpa using hd
      exact ⟨d :: p, by simp [collapseAux_cons_of_neg hd', hp]⟩

/-- The head of a nonempty cleaned variant is not whitespace. -/
lemma cleanVariant_head_false {v : List Char} {c : Char} {t : List Char}
    (h : cleanVariant v = c :: t) : isJsWs c = false := by
  unfold cleanVariant collapseWs at h
  cases hT : trimChars v with
  | nil => rw [hT] at h; simp [collapseAux] at h
  | cons d u =>
    have hd : isJsWs d = false := trimChars_head_false hT
    rw [hT, collapseAux_cons_of_neg hd] at h
    cases h
    exact hd

/-- A nonempty cleaned variant ends in a non-whitespace character. -/
lemma cleanVariant_last {v : List Char} (h : cleanVariant v ≠ []) :
    ∃ p c, cleanVariant v = p ++ [c] ∧ isJsWs c = false := by
  have hT : trimChars v ≠ [] := by
    intro h0
    apply h
    unfold cleanVariant collapseWs
    rw [h0]
    rfl
  obtain ⟨s, d, hsd⟩ : ∃ s d, trimChars v = s ++ [d] := by
    rcases List.eq_nil_or_concat (trimChars v) with h0 | ⟨s, d, hsd⟩
    · exact absurd h0 hT
    · exact ⟨s, d, by rw [hsd, List.concat_eq_append]⟩
  have hd : isJsWs d = false := by
    apply trimChars_getLast_false (v := v)
    rw [hsd, List.getLast?_append_of_ne_nil _ (by simp)]
    rfl
  obtain ⟨p, hp⟩ := collapseAux_append_last hd s false
  exact ⟨p, d, by unfold cleanVariant collapseWs; rw [hsd, hp], hd⟩

/-- A nonempty cleaned variant is trim-stable. -/
lemma cleanVariant_trim_fixed {v : List Char} (h : cleanVariant v ≠ []) :
    trimChars (cleanVariant v) = cleanVariant v := by
  obtain ⟨c, t, hct⟩ : ∃ c t, cleanVariant v = c :: t := by
    rcases h2 : cleanVariant v with _ | ⟨c, t⟩
    · exact absurd h2 h
    · exact ⟨c, t, rfl⟩
  have hc : isJsWs c = false := cleanVariant_head_false hct
  obtain ⟨p, d, hpd, hd⟩ := cleanVariant_last h
  unfold trimChars
  rw [hct, dropWhile_cons_of_neg hc, ← hct, hpd]
  rw [List.reverse_append]
  simp only [List.reverse_cons, List.reverse_nil, List.nil_append, List.singleton_append]
  rw [dropWhile_cons_of_neg hd]
  simp

lemma pushVariant_mem {vs : List (List Char)} {v x : List Char}
    (h : x ∈ pushVariant vs v) :
    x ∈ vs ∨ (x = cleanVariant v ∧ cleanVariant v ≠ []) := by
  unfold pushVariant at h
  split at h
  · exact Or.inl h
  · split at h
    · exact Or.inl h
    · rcases List.mem_append.1 h with h1 | h1
      · exact Or.inl h1
      · rename_i hne _
        simp only [List.mem_singleton] at h1
        exact Or.inr ⟨h1, hne⟩

lemma pushVariant_nodup {vs : List (List Char)} {v : List Char}
    (h : vs.Nodup) : (pushVariant vs v).Nodup := by
  unfold pushVariant
  split
  · exact h
  · split
    · exact h
    · rename_i hmem
      simp [List.nodup_append, h, hmem]

lemma pushVariant_ne_nil {vs : List (List Char)} {v : List Char}
    (h : vs ≠ []) : pushVariant vs v ≠ [] := by
  unfold pushVariant
  split
  · exact h
  · split
    · exact h
    · simp

lemma pushVariant_head {vs : List (List Char)} {v : List Char}
    (h : vs ≠ []) : (pushVariant vs v).head? = vs.head? := by
  unfold pushVariant
  split
  · rfl
  · split
    · rfl
    · exact List.head?_append_of_ne_nil _ h

/-- The message used in the C5 counterexample: it contains a run of two
spaces, so the first variant collapses it while `trim` does not. -/
def cexMsg : List Char := lstr "a  b"

/-- C5 counterexample: for `m = "a  b"` the first element of the variant
list is `"a b"` (trimmed **and** whitespace-collapsed), which differs from
`m.trim() = "a  b"` — so the variant list does not contain `m.trim()` as its
first element. -/
theorem buildLexicalQueryVariants_cex :
    (buildLexicalQueryVariants cexMsg).head? ≠ some (trimChars cexMsg) := by
  decide

/-- C5 amended: for every message `m`, the variant list contains the
whitespace-normalised trim of `m` (`cleanVariant m`) as its first element
whenever that is nonempty (for a whitespace-only `m` the list can lack it),
contains no duplicates, and contains no empty and no whitespace-only
elements (each element is nonempty and trim-stable, and a nonempty
whitespace-only string is not trim-stable). -/
theorem buildLexicalQueryVariants_amended (m : List Char) :
    (cleanVariant m ≠ [] →
      (buildLexicalQueryVariants m).head? = some (cleanVariant m)) ∧
    (buildLexicalQueryVariants m).Nodup ∧
    ∀ x ∈ buildLexicalQueryVariants m, x ≠ [] ∧ trimChars x = x := by
  simp only [buildLexicalQueryVariants]
  refine ⟨?_, ?_, ?_⟩
  · intro hne
    have h1 : pushVariant [] m = [cleanVariant m] := by
      unfold pushVariant
      simp [hne]
    rw [pushVariant_head, pushVariant_head, pushVariant_head, pushVariant_head, h1]
    · rfl
    · rw [h1]; simp
    · exact pushVariant_ne_nil (by rw [h1]; simp)
    · exact pushVariant_ne_nil (pushVariant_ne_nil (by rw [h1]; simp))
    · exact pushVariant_ne_nil (pushVariant_ne_nil (pushVariant_ne_nil (by rw [h1]; simp)))
  · exact pushVariant_nodup (pushVariant_nodup (pushVariant_nodup
      (pushVariant_nodup (pushVariant_nodup List.nodup_nil))))
  · intro x hx
    have : x ∈ ([] : List (List Char)) ∨ ∃ y, x = cleanVariant y ∧ cleanVariant y ≠ [] := by
      rcases pushVariant_mem hx with h | h
      · rcases pushVariant_mem h with h | h
        · rcases pushVariant_mem h with h | h
          · rcases pushVariant_mem h with h | h
            · rcases pushVariant_mem h with h | h
              · exact Or.inl h
              · exact Or.inr ⟨_, h⟩
            · exact Or.inr ⟨_, h⟩
          · exact Or.inr ⟨_, h⟩
        · exact Or.inr ⟨_, h⟩
      · exact Or.inr ⟨_, h⟩
    rcases this with h | ⟨y, hy, hyne⟩
    · simp at h
    · subst hy
      exact ⟨hyne, cleanVariant_trim_fixed hyne⟩

/-- C5 witness: concrete instance of the amended theorem. -/
theorem buildLexicalQueryVariants_amended_witness :
    (buildLexicalQueryVariants (lstr "hello there")).head? =
        some (cleanVariant (lstr "hello there")) ∧
      (buildLexicalQueryVariants (lstr "hello there")).Nodup :=
  ⟨(buildLexicalQueryVariants_amended (lstr "hello there")).1 (by decide),
   (buildLexicalQueryVariants_amended (lstr "hello there")).2.1⟩

/-! ### Collection refresh cooldown (`maybeUpdateCollection`, memory.ts:261-269)

The per-collection entry of the process-wide `lastCollectionUpdateMs` map is
modelled across a sequence of calls for one fixed collection.  Each call
carries its `Date.now()` value and whether the backend `update` command
would succeed. -/

/-- One `maybeUpdateCollection` call: `last` is the stored last-refresh
timestamp in milliseconds (`0` when the map has no entry).  Returns the new
stored timestamp, whether a backend update call was issued, and whether the
call threw.  The timestamp is written only after the awaited update command
succeeds; on a rejection the write is skipped and the error propagates. -/
def mucStep (last now : ℤ) (updateIntervalSeconds : ℚ) (succeeds : Bool) :
    ℤ × Bool × Bool :=
  if ((now - last : ℤ) : ℚ) < updateIntervalSeconds * 1000 then (last, false, false)
  else if succeeds then (now, true, false)
  else (last, true, true)

/-- Run a sequence of `maybeUpdateCollection` calls for one collection.
Returns the final stored timestamp and the `now` values of the calls that
issued a backend update command. -/
def mucRun (updateIntervalSeconds : ℚ) (last : ℤ) :
    List (ℤ × Bool) → ℤ × List ℤ
  | [] => (last, [])
  | (now, s) :: rest =>
    ((mucRun updateIntervalSeconds (mucStep last now updateIntervalSeconds s).1 rest).1,
     (if (mucStep last now updateIntervalSeconds s).2.1 then [now] else []) ++
       (mucRun updateIntervalSeconds (mucStep last now updateIntervalSeconds s).1 rest).2)

/-- C6 counterexample: with a 10-second interval and a backend whose first
update call fails, two consecutive calls (at t = 20000ms and t = 20001ms)
both issue a backend update — two update calls 1ms apart, inside one rolling
window of the configured interval.  The claim that at most one update call
is issued per rolling window regardless of call frequency is false, because
a failed update does not advance the stored timestamp. -/
theorem maybeUpdateCollection_window_cex :
    (mucRun 10 0 [(20000, false), (20001, true)]).2 = [20000, 20001] ∧
      (20001 : ℤ) - 20000 < 10 * 1000 := by
  have h1 : mucStep 0 20000 10 false = (0, true, true) := by
    unfold mucStep
    rw [if_neg (by push_cast; norm_num)]
    rfl
  have h2 : mucStep 0 20001 10 true = (20001, true, false) := by
    unfold mucStep
    rw [if_neg (by push_cast; norm_num)]
    rfl
  refine ⟨?_, by decide⟩
  simp [mucRun, h1, h2]

/-- Helper invariant for the C6 amended theorem: when every call's update
command succeeds, the issued update times are pairwise at least one interval
apart, and all of them are at least one interval after the initial stored
timestamp. -/
lemma mucRun_issues (interval : ℚ) (hi : 0 ≤ interval) :
    ∀ (trace : List (ℤ × Bool)) (last : ℤ), (∀ e ∈ trace, e.2 = true) →
      List.Pairwise (fun a b : ℤ => (a : ℚ) + interval * 1000 ≤ (b : ℚ))
          (mucRun interval last trace).2 ∧
        ∀ t ∈ (mucRun interval last trace).2,
          (last : ℚ) + interval * 1000 ≤ (t : ℚ) := by
  intro trace
  induction trace with
  | nil => intro last _; simp [mucRun]
  | cons e rest ih =>
    intro last hs
    obtain ⟨now, s⟩ := e
    have hstrue : s = true := hs _ (List.mem_cons_self _ _)
    subst hstrue
    have hrest : ∀ e ∈ rest, e.2 = true := fun e he => hs e (List.mem_cons_of_mem _ he)
    by_cases hc : ((now - last : ℤ) : ℚ) < interval * 1000
    · have hstep : mucStep last now interval true = (last, false, false) := by
        unfold mucStep; rw [if_pos hc]
      have hrun : (mucRun interval last ((now, true) :: rest)).2 =
          (mucRun interval last rest).2 := by
        simp [mucRun, hstep]
      obtain ⟨ih1, ih2⟩ := ih last hrest
      rw [hrun]
      exact ⟨ih1, ih2⟩
    · have hstep : mucStep last now interval true = (now, true, false) := by
        unfold mucStep; rw [if_neg hc]; rfl
      have hrun : (mucRun interval last ((now, true) :: rest)).2 =
          now :: (mucRun interval now rest).2 := by
        simp [mucRun, hstep]
      obtain ⟨ih1, ih2⟩ := ih now hrest
      have hgap : (last : ℚ) + interval * 1000 ≤ (now : ℚ) := by
        push_neg at hc
        push_cast at hc
        linarith
      have hW : (0 : ℚ) ≤ interval * 1000 := mul_nonneg hi (by norm_num)
      rw [hrun]
      constructor
      · exact List.Pairwise.cons (fun b hb => ih2 b hb) ih1
      · intro t ht
        rcases List.mem_cons.1 ht with rfl | ht
        · exact hgap
        · have := ih2 t ht
          linarith

/-- C6 amended: the stored last-refresh timestamp changes only when the
backend update command succeeds (on failure or skip it is unchanged), and —
provided every issued update command succeeds — any two issued update calls
are at least one configured interval apart, so at most one update call is
issued within any rolling window of the configured interval.  (With a
failing backend the cooldown timestamp is deliberately not advanced, so
calls are re-issued; the unconditional claim fails, see the counterexample.) -/
theorem maybeUpdateCollection_amended (interval : ℚ) (last : ℤ)
    (trace : List (ℤ × Bool)) (hi : 0 ≤ interval)
    (hs : ∀ e ∈ trace, e.2 = true) :
    List.Pairwise (fun a b : ℤ => (a : ℚ) + interval * 1000 ≤ (b : ℚ))
        (mucRun interval last trace).2 ∧
      ∀ l n : ℤ, (mucStep l n interval false).1 = l := by
  refine ⟨(mucRun_issues interval hi trace last hs).1, ?_⟩
  intro l n
  unfold mucStep
  split
  · rfl
  · rfl

/-- C6 witness: concrete instance of the amended theorem. -/
theorem maybeUpdateCollection_amended_witness :
    List.Pairwise (fun a b : ℤ => (a : ℚ) + 10 * 1000 ≤ (b : ℚ))
        (mucRun 10 0 [(20000, true), (45000, true)]).2 ∧
      ∀ l n : ℤ, (mucStep l n 10 false).1 = l :=
  maybeUpdateCollection_amended 10 0 [(20000, true), (45000, true)]
    (by norm_num) (by decide)

/-! ### Prompt composer (`formatMemoryPrompt`, memory.ts:436-471) -/

/-- A parsed backend hit (`interface QmdResult`). -/
structure QmdResult where
  score : ℚ
  snippet : List Char
  source : List Char
deriving DecidableEq

/-- Decimal digits of a natural number. -/
def natDigits (n : Nat) : List Char := (Nat.repr n).data

/-- Zero-pad on the left to three characters. -/
def padLeft3 (s : List Char) : List Char :=
  if s.length < 3 then List.replicate (3 - s.length) '0' ++ s else s

/-- `x.toFixed(3)` for a nonnegative exact rational: round to the nearer
multiple of 1/1000, ties toward the larger value (ECMAScript `toFixed`). -/
def toFixed3Pos (q : ℚ) : List Char :=
  natDigits ((⌊q * 1000 + 1/2⌋).toNat / 1000) ++
    '.' :: padLeft3 (natDigits ((⌊q * 1000 + 1/2⌋).toNat % 1000))

/-- `x.toFixed(3)` (ECMAScript: a negative argument is formatted as `-`
followed by the formatting of its negation). -/
def toFixed3 (q : ℚ) : List Char :=
  if q < 0 then '-' :: toFixed3Pos (-q) else toFixed3Pos q

/-- One text block of the memory prompt (the `block` of the loop body,
memory.ts:446-450): the three lines joined by newlines. -/
def mkBlock (i : Nat) (result : QmdResult) : List Char :=
  lstr "Snippet " ++ natDigits (i + 1) ++ lstr " (score=" ++
    toFixed3 result.score ++ lstr "):" ++
  '\n' :: (if result.source ≠ [] then lstr "Source: " ++ result.source
    else lstr "Source: unknown") ++
  '\n' :: result.snippet

/-- The block-selection loop of `formatMemoryPrompt` (memory.ts:444-457):
append blocks in order, stopping as soon as the next block would push the
accumulated block length past `maxChars`. -/
def takeBlocks (maxChars : ℚ) : Nat → Nat → List QmdResult → List (List Char)
  | _, _, [] => []
  | i, usedChars, result :: rest =>
    if (usedChars : ℚ) + ((mkBlock i result).length : ℚ) > maxChars then []
    else mkBlock i result ::
      takeBlocks maxChars (i + 1) (usedChars + (mkBlock i result).length) rest

def memoryPromptHeader : List Char :=
  lstr "Retrieved memory snippets (from past conversations):"

def memoryPromptRule : List Char :=
  lstr "Use only if relevant. Prioritize current user instructions over old memory."

/-- `formatMemoryPrompt(results, maxChars)` (memory.ts:436-471). -/
def formatMemoryPrompt (results : List QmdResult) (maxChars : ℚ) : List Char :=
  if results = [] then []
  else if takeBlocks maxChars 0 0 results = [] then []
  else List.intercalate (lstr "\n")
    [[], lstr "---", memoryPromptHeader, memoryPromptRule, [],
     List.intercalate (lstr "\n\n") (takeBlocks maxChars 0 0 results)]

/-- The fixed preamble that precedes the blocks in a nonempty prompt. -/
def memoryPreamble : List Char :=
  '\n' :: lstr "---" ++ '\n' :: memoryPromptHeader ++
    '\n' :: memoryPromptRule ++ lstr "\n\n"

/-- The wrapping join of `formatMemoryPrompt` is the fixed preamble followed
by the blocks joined with blank lines. -/
lemma intercalate_prompt (x : List Char) :
    List.intercalate (lstr "\n")
        [[], lstr "---", memoryPromptHeader, memoryPromptRule, [], x] =
      memoryPreamble ++ x := by
  simp [List.intercalate, List.intersperse, memoryPreamble, lstr]

/-- Joining a nonempty list of blocks starts with the first block. -/
lemma intercalate_cons_exists (sep b : List Char) (ts : List (List Char)) :
    ∃ x, List.intercalate sep (b :: ts) = b ++ x := by
  cases ts with
  | nil => exact ⟨[], by simp [List.intercalate, List.intersperse]⟩
  | cons y ys =>
    exact ⟨sep ++ List.intercalate sep (y :: ys),
      by simp [List.intercalate, List.intersperse]⟩

/-- Total length of a list of blocks. -/
def sumLens (blocks : List (List Char)) : Nat := (blocks.map List.length).sum

/-- The selected blocks never exceed the budget (counting block characters). -/
lemma takeBlocks_sum (maxChars : ℚ) :
    ∀ (rs : List QmdResult) (i usedChars : Nat),
      (usedChars : ℚ) ≤ maxChars →
      (usedChars : ℚ) + (sumLens (takeBlocks maxChars i usedChars rs) : ℚ) ≤ maxChars := by
  intro rs
  induction rs with
  | nil => intro i usedChars h; simp [takeBlocks, sumLens, h]
  | cons r rest ih =>
    intro i usedChars h
    unfold takeBlocks
    split
    · simp [sumLens, h]
    · rename_i hfits
      push_neg at hfits
      have := ih (i + 1) (usedChars + (mkBlock i r).length) (by push_cast; linarith)
      simp only [sumLens, List.map_cons, List.sum_cons] at this ⊢
      push_cast at this ⊢
      linarith

/-- Formatting the score `0` yields the five characters `0.000`. -/
lemma toFixed3_zero : toFixed3 0 = lstr "0.000" := by
  unfold toFixed3 toFixed3Pos
  rw [if_neg (by norm_num), show ⌊(0 : ℚ) * 1000 + 1/2⌋ = 0 by norm_num]
  decide

/-- The result used in the C3 counterexample: enough snippet text that the
single selected block nearly fills a 500-character budget. -/
def cexResult : QmdResult :=
  { score := 0, snippet := List.replicate 450 's', source := [] }

lemma cexResult_block : mkBlock 0 cexResult = lstr "Snippet 1 (score=0.000):" ++
    '\n' :: lstr "Source: unknown" ++ '\n' :: List.replicate 450 's' := by
  show lstr "Snippet " ++ natDigits (0 + 1) ++ lstr " (score=" ++
      toFixed3 cexResult.score ++ lstr "):" ++
    '\n' :: (if cexResult.source ≠ [] then lstr "Source: " ++ cexResult.source
      else lstr "Source: unknown") ++
    '\n' :: cexResult.snippet = _
  rw [show cexResult.score = 0 from rfl, toFixed3_zero]
  decide

lemma cexResult_block_len : (mkBlock 0 cexResult).length = 491 := by
  rw [cexResult_block]
  decide

/-- C3 counterexample: with the minimal configured budget `maxChars = 500`
and one snippet whose block is 491 characters (within budget, so it is
included), the returned string is 626 characters — the fixed preamble and
separators are not counted against the budget, so the returned string
exceeds `maxChars`. -/
theorem formatMemoryPrompt_budget_cex :
    500 < (formatMemoryPrompt [cexResult] 500).length := by
  have hcond : ¬ ((((0 : Nat)) : ℚ) + (((mkBlock 0 cexResult).length : Nat) : ℚ) > 500) := by
    rw [cexResult_block_len]
    push_cast
    norm_num
  have hblocks : takeBlocks 500 0 0 [cexResult] = [mkBlock 0 cexResult] := by
    simp only [takeBlocks]
    rw [if_neg hcond]
  have hfmp : formatMemoryPrompt [cexResult] 500 =
      memoryPreamble ++ mkBlock 0 cexResult := by
    simp only [formatMemoryPrompt]
    rw [if_neg (by simp), hblocks, if_neg (by simp)]
    rw [show List.intercalate (lstr "\n\n") [mkBlock 0 cexResult] = mkBlock 0 cexResult by
      simp [List.intercalate, List.intersperse]]
    exact intercalate_prompt _
  rw [hfmp, List.length_append, cexResult_block_len]
  decide

/-- C3 amended: the combined length of the snippet blocks included in the
prompt never exceeds `maxChars` (the returned string additionally carries a
fixed 135-character preamble and two-character separators between blocks,
which the source does not count against the budget); the prompt is empty
when there are no snippets, contains at least the top-ranked snippet's block
right after the preamble when that block fits the budget, and is empty when
even the first block exceeds the budget. -/
theorem formatMemoryPrompt_budget_amended (results : List QmdResult) (maxChars : ℚ)
    (h : 0 ≤ maxChars) :
    (sumLens (takeBlocks maxChars 0 0 results) : ℚ) ≤ maxChars ∧
    (results = [] → formatMemoryPrompt results maxChars = []) ∧
    ∀ r rest, results = r :: rest →
      (((mkBlock 0 r).length : ℚ) ≤ maxChars →
        ∃ tail, formatMemoryPrompt results maxChars =
          memoryPreamble ++ (mkBlock 0 r ++ tail)) ∧
      (maxChars < ((mkBlock 0 r).length : ℚ) →
        formatMemoryPrompt results maxChars = []) := by
  refine ⟨?_, ?_, ?_⟩
  · have := takeBlocks_sum maxChars results 0 0 (by exact_mod_cast h)
    simpa using this
  · intro h0; simp [formatMemoryPrompt, h0]
  · intro r rest hr
    subst hr
    constructor
    · intro hfit
      have hcond : ¬ (((0 : Nat) : ℚ) + (((mkBlock 0 r).length : Nat) : ℚ) > maxChars) := by
        push_neg
        push_cast
        linarith
      have hblocks : takeBlocks maxChars 0 0 (r :: rest) =
          mkBlock 0 r :: takeBlocks maxChars (0 + 1) (0 + (mkBlock 0 r).length) rest := by
        simp only [takeBlocks]
        rw [if_neg hcond]
      obtain ⟨x, hx⟩ := intercalate_cons_exists (lstr "\n\n") (mkBlock 0 r)
        (takeBlocks maxChars (0 + 1) (0 + (mkBlock 0 r).length) rest)
      refine ⟨x, ?_⟩
      unfold formatMemoryPrompt
      rw [if_neg (List.cons_ne_nil r rest), hblocks,
        if_neg (List.cons_ne_nil (mkBlock 0 r) _), hx, intercalate_prompt]
    · intro hover
      have hcond : (((0 : Nat) : ℚ) + (((mkBlock 0 r).length : Nat) : ℚ) > maxChars) := by
        push_cast
        linarith
      have hblocks : takeBlocks maxChars 0 0 (r :: rest) = [] := by
        simp only [takeBlocks]
        rw [if_pos hcond]
      simp [formatMemoryPrompt, hblocks]

/-- A one-character snippet used in the C3 witness. -/
def wRes : QmdResult := { score := 0, snippet := lstr "s", source := [] }

lemma wRes_block_len : (mkBlock 0 wRes).length = 42 := by
  have : mkBlock 0 wRes = lstr "Snippet 1 (score=0.000):" ++
      '\n' :: lstr "Source: unknown" ++ '\n' :: lstr "s" := by
    show lstr "Snippet " ++ natDigits (0 + 1) ++ lstr " (score=" ++
        toFixed3 wRes.score ++ lstr "):" ++
      '\n' :: (if wRes.source ≠ [] then lstr "Source: " ++ wRes.source
        else lstr "Source: unknown") ++
      '\n' :: wRes.snippet = _
    rw [show wRes.score = 0 from rfl, toFixed3_zero]
    decide
  rw [this]
  decide

/-- C3 witness: concrete instance of the amended theorem at a snippet whose
first block fits the budget. -/
theorem formatMemoryPrompt_budget_amended_witness :
    ∃ tail, formatMemoryPrompt [wRes] 500 =
      memoryPreamble ++ (mkBlock 0 wRes ++ tail) :=
  ((formatMemoryPrompt_budget_amended [wRes] 500 (by norm_num)).2.2 wRes [] rfl).1
    (by rw [wRes_block_len]; norm_num)

/-! ### Result parser (`parseQmdResults`, memory.ts:306-338)

The backend output is a raw string handed to `JSON.parse`.  JSON values are
modelled by the `Json` inductive; `jsonParse` is an executable model of
`JSON.parse` (whitespace, strings with escapes, numbers, arrays, objects,
and rejection of trailing garbage). -/

/-- A parsed JSON value. -/
inductive Json where
  | null
  | bool (b : Bool)
  | num (q : ℚ)
  | str (s : List Char)
  | arr (elems : List Json)
  | obj (fields : List (List Char × Json))

/-- JSON whitespace. -/
def skipJsonWs : List Char → List Char
  | [] => []
  | c :: rest =>
    if c = ' ' || c = '\t' || c = '\n' || c = '\r' then skipJsonWs rest
    else c :: rest

/-- The value of one hexadecimal digit (`0-9`, `a-f`, `A-F`). -/
def hexVal (c : Char) : Option Nat :=
  let n := c.toNat
  if 48 ≤ n && n ≤ 57 then some (n - 48)
  else if 97 ≤ n && n ≤ 102 then some (n - 87)
  else if 65 ≤ n && n ≤ 70 then some (n - 55)
  else none

/-- Parse the body of a JSON string (after the opening quote): returns the
content and the remaining input after the closing quote.  Surrogate-pair
escapes are modelled as the two code units mapped through `Char.ofNat`
(astral characters are irrelevant to the claims). -/
def pString : List Char → Option (List Char × List Char)
  | [] => none
  | '"' :: rest => some ([], rest)
  | '\\' :: '"' :: rest => (pString rest).map (fun p => ('"' :: p.1, p.2))
  | '\\' :: '\\' :: rest => (pString rest).map (fun p => ('\\' :: p.1, p.2))
  | '\\' :: '/' :: rest => (pString rest).map (fun p => ('/' :: p.1, p.2))
  | '\\' :: 'b' :: rest => (pString rest).map (fun p => ('\x08' :: p.1, p.2))
  | '\\' :: 'f' :: rest => (pString rest).map (fun p => ('\x0c' :: p.1, p.2))
  | '\\' :: 'n' :: rest => (pString rest).map (fun p => ('\n' :: p.1, p.2))
  | '\\' :: 'r' :: rest => (pString rest).map (fun p => ('\r' :: p.1, p.2))
  | '\\' :: 't' :: rest => (pString rest).map (fun p => ('\t' :: p.1, p.2))
  | '\\' :: 'u' :: h1 :: h2 :: h3 :: h4 :: rest =>
    match hexVal h1, hexVal h2, hexVal h3, hexVal h4 with
    | some a, some b, some c, some d =>
      (pString rest).map (fun p =>
        (Char.ofNat (((a * 16 + b) * 16 + c) * 16 + d) :: p.1, p.2))
    | _, _, _, _ => none
  | '\\' :: _ => none
  | c :: rest =>
    if c.toNat < 0x20 then none
    else (pString rest).map (fun p => (c :: p.1, p.2))

/-- Split a maximal run of decimal digits off the front. -/
def pDigits : List Char → List Char × List Char
  | [] => ([], [])
  | c :: rest =>
    if c.isDigit then
      ((c :: (pDigits rest).1), (pDigits rest).2)
    else ([], c :: rest)

def digitsToNat (ds : List Char) : Nat :=
  ds.foldl (fun acc c => 10 * acc + (c.toNat - '0'.toNat)) 0

/-- JSON forbids redundant leading zeros in the integer part. -/
def leadingZeroInvalid : List Char → Bool
  | '0' :: _ :: _ => true
  | _ => false

/-- Mantissa digits `ds` (integer part) and `fs` (fraction part) with
decimal exponent `e` as an exact rational. -/
def buildNum (ds fs : List Char) (e : ℤ) : ℚ :=
  (digitsToNat (ds ++ fs) : ℚ) * (10 : ℚ) ^ (e - (fs.length : ℤ))

def pExpDigits (s : List Char) : Option (ℤ × List Char) :=
  match pDigits s with
  | ([], _) => none
  | (ds, r) => some ((digitsToNat ds : ℤ), r)

def pExpSign : List Char → Option (ℤ × List Char)
  | '+' :: s => pExpDigits s
  | '-' :: s => (pExpDigits s).map (fun p => (-p.1, p.2))
  | s => pExpDigits s

/-- Optional exponent part (0 when absent). -/
def pExp : List Char → Option (ℤ × List Char)
  | 'e' :: s => pExpSign s
  | 'E' :: s => pExpSign s
  | s => some (0, s)

def pNumberPos (s : List Char) : Option (ℚ × List Char) :=
  match pDigits s with
  | ([], _) => none
  | (ds, rest) =>
    if leadingZeroInvalid ds then none
    else
      match rest with
      | '.' :: r2 =>
        match pDigits r2 with
        | ([], _) => none
        | (fs, r3) => (pExp r3).map (fun p => (buildNum ds fs p.1, p.2))
      | _ => (pExp rest).map (fun p => (buildNum ds [] p.1, p.2))

def pNumber : List Char → Option (ℚ × List Char)
  | '-' :: rest => (pNumberPos rest).map (fun p => (-p.1, p.2))
  | s => pNumberPos s

/-- Comma-separated array items up to the closing bracket; `pv` parses one
value.  `fuel` only serves totality (each step consumes a separator). -/
def pArrayItems (pv : List Char → Option (Json × List Char)) :
    Nat → List Char → Option (List Json × List Char)
  | 0, _ => none
  | fuel + 1, s =>
    match pv s with
    | none => none
    | some (v, r1) =>
      match skipJsonWs r1 with
      | ',' :: r2 =>
        match pArrayItems pv fuel r2 with
        | none => none
        | some (xs, r3) => some (v :: xs, r3)
      | ']' :: r2 => some ([v], r2)
      | _ => none

/-- Comma-separated object members up to the closing brace. -/
def pObjMembers (pv : List Char → Option (Json × List Char)) :
    Nat → List Char → Option (List (List Char × Json) × List Char)
  | 0, _ => none
  | fuel + 1, s =>
    match skipJsonWs s with
    | '"' :: rest =>
      match pString rest with
      | none => none
      | some (key, r1) =>
        match skipJsonWs r1 with
        | ':' :: r2 =>
          match pv r2 with
          | none => none
          | some (v, r3) =>
            match skipJsonWs r3 with
            | ',' :: r4 =>
              match pObjMembers pv fuel r4 with
              | none => none
              | some (fs, r5) => some ((key, v) :: fs, r5)
            | '}' :: r4 => some ([(key, v)], r4)
            | _ => none
        | _ => none
    | _ => none

/-- Parse one JSON value; `fuel` bounds the nesting depth (each level
consumes at least one character, so the input length suffices). -/
def pJson : Nat → List Char → Option (Json × List Char)
  | 0, _ => none
  | fuel + 1, s =>
    match skipJsonWs s with
    | 'n' :: 'u' :: 'l' :: 'l' :: rest => some (.null, rest)
    | 't' :: 'r' :: 'u' :: 'e' :: rest => some (.bool true, rest)
    | 'f' :: 'a' :: 'l' :: 's' :: 'e' :: rest => some (.bool false, rest)
    | '"' :: rest => (pString rest).map (fun p => (.str p.1, p.2))
    | '[' :: rest =>
      match skipJsonWs rest with
      | ']' :: r2 => some (.arr [], r2)
      | r2 => (pArrayItems (pJson fuel) fuel r2).map (fun p => (.arr p.1, p.2))
    | '{' :: rest =>
      match skipJsonWs rest with
      | '}' :: r2 => some (.obj [], r2)
      | r2 => (pObjMembers (pJson fuel) fuel r2).map (fun p => (.obj p.1, p.2))
    | s2 => (pNumber s2).map (fun p => (.num p.1, p.2))

/-- `JSON.parse`: a value surrounded by whitespace and nothing else. -/
def jsonParse (s : List Char) : Option Json :=
  match pJson (s.length + 1) s with
  | some (v, rest) => if skipJsonWs rest = [] then some v else none
  | none => none

/-- JavaScript truthiness of a parsed JSON value. -/
def jsTruthy : Json → Bool
  | .null => false
  | .bool b => b
  | .num q => decide (q ≠ 0)
  | .str s => !s.isEmpty
  | .arr _ => true
  | .obj _ => true

/-- Property lookup on a parsed object.  `JSON.parse` keeps the last of
duplicate keys, hence the reversed search. -/
def objGet (fields : List (List Char × Json)) (key : List Char) : Option Json :=
  (fields.reverse.find? (fun f => f.1 == key)).map (·.2)

/-- `String(x)` for a nonnegative rational with a terminating decimal
expansion (the case produced by binary doubles); other rationals fall back
to a fraction rendering that JavaScript cannot produce. -/
def jsNumToStringPos (q : ℚ) : List Char :=
  match (List.range 40).find? (fun e => (q * (10 : ℚ) ^ (e : ℕ)).den == 1) with
  | some e =>
    if e = 0 then natDigits (q.num.toNat)
    else
      let ds := natDigits ((q * (10 : ℚ) ^ (e : ℕ)).num.toNat)
      let ds2 := if ds.length ≤ e then List.replicate (e + 1 - ds.length) '0' ++ ds else ds
      ds2.take (ds2.length - e) ++ '.' :: ds2.drop (ds2.length - e)
  | none => natDigits q.num.toNat ++ '/' :: natDigits q.den

/-- `String(x)` for a number (models ECMAScript number-to-string on the
decimal-representable values that occur here). -/
def jsNumToString (q : ℚ) : List Char :=
  if q < 0 then '-' :: jsNumToStringPos (-q) else jsNumToStringPos q

/-- `String(x)` with explicit fuel (the nested `Json` recursion through
array joins is bounded by `sizeOf`). -/
def jsToStringF : Nat → Json → List Char
  | 0, _ => []
  | fuel + 1, v =>
    match v with
    | .null => lstr "null"
    | .bool true => lstr "true"
    | .bool false => lstr "false"
    | .num q => jsNumToString q
    | .str s => s
    | .obj _ => lstr "[object Object]"
    | .arr xs =>
      List.intercalate (lstr ",")
        (xs.map (fun x => match x with
          | .null => []
          | x => jsToStringF fuel x))

/-- `String(x)`: array elements join with commas, `null` joins as empty.
The depth budget stands in for the engine call-stack limit (a JavaScript
engine raises a RangeError far below this depth; backend rows are flat). -/
def jsToString (v : Json) : List Char := jsToStringF 10000 v

/-- `for (const row of rows)`: arrays iterate their elements, strings their
characters; any other truthy value raises a TypeError. -/
def jsIterate : Json → Except (List Char) (List Json)
  | .arr xs => .ok xs
  | .str s => .ok (s.map (fun c => Json.str [c]))
  | _ => .error (lstr "TypeError: value is not iterable")

/-- `Array.isArray(parsed) ? parsed : (parsed as {results?}).results || []`
followed by iterating the rows (memory.ts:319-324).  Property access on
`null` raises a TypeError, and a truthy non-iterable `results` value makes
the `for..of` raise. -/
def extractRows : Json → Except (List Char) (List Json)
  | .arr xs => .ok xs
  | .null => .error (lstr "TypeError: cannot read properties of null")
  | v =>
    match (match v with
      | .obj fields => objGet fields (lstr "results")
      | _ => none) with
    | some r => if jsTruthy r then jsIterate r else .ok []
    | none => .ok []

/-- The truthiness chain `r.snippet || r.context || r.text || r.content || ''`:
the first field holding a truthy value wins; a present-but-falsy field
(such as the empty string) falls through. -/
def firstTruthyField (fields : List (List Char × Json)) :
    List (List Char) → Json
  | [] => .str []
  | k :: ks =>
    match objGet fields k with
    | some v => if jsTruthy v then v else firstTruthyField fields ks
    | none => firstTruthyField fields ks

/-- The loop body of `parseQmdResults` (memory.ts:324-336) for one row.
A row that is not an object is skipped (`!row || typeof row !== 'object'`);
a parsed JSON array row passes that test but has none of the named fields,
so its empty snippet drops it — the net effect is `none` for every
non-object row. -/
def processRow : Json → Option QmdResult
  | .obj fields =>
    if trimChars (jsToString (firstTruthyField fields
        [lstr "snippet", lstr "context", lstr "text", lstr "content"])) = [] then
      none
    else some
      { score := match objGet fields (lstr "score") with
          | some (.num q) => q
          | _ => 0
        snippet := trimChars (jsToString (firstTruthyField fields
          [lstr "snippet", lstr "context", lstr "text", lstr "content"]))
        source := trimChars (jsToString (firstTruthyField fields
          [lstr "path", lstr "file", lstr "source", lstr "title"])) }
  | _ => none

/-- `parseQmdResults(raw)` (memory.ts:306-338).  Only `JSON.parse` is inside
the try, so a TypeError thrown by the row extraction propagates — modelled
by the `Except` error. -/
def parseQmdResults (raw : List Char) : Except (List Char) (List QmdResult) :=
  if trimChars raw = [] then .ok []
  else
    match jsonParse (trimChars raw) with
    | none => .ok []
    | some parsed =>
      match extractRows parsed with
      | .error e => .error e
      | .ok rows => .ok (rows.filterMap processRow)

/-- C7 counterexample: `parseQmdResults` is not total.  On the valid JSON
input `null`, the property access `(parsed).results` is performed on `null`
and raises a TypeError outside the try block, so the function raises
instead of returning a result list. -/
theorem parseQmdResults_total_cex :
    parseQmdResults (lstr "null") =
      .error (lstr "TypeError: cannot read properties of null") := by
  rfl

/-- Iterating a string `results` value visits its characters; every
one-character string row fails the `typeof row === 'object'` test, so the
row loop drops them all. -/
lemma strRows_filterMap (s : List Char) :
    (s.map (fun c => Json.str [c])).filterMap processRow = [] := by
  induction s with
  | nil => rfl
  | cons c cs ih => simp [processRow, ih]

/-- The row extraction (memory.ts:319-324) raises exactly on JSON `null`
(property access) and on an object whose `results` field is truthy but
neither an array nor a string (`for..of` on a non-iterable). -/
lemma extractRows_error_iff (parsed : Json) :
    (∃ e, extractRows parsed = .error e) ↔
      (parsed = .null ∨
        ∃ fields r, parsed = .obj fields ∧
          objGet fields (lstr "results") = some r ∧ jsTruthy r = true ∧
          (∀ xs, r ≠ .arr xs) ∧ (∀ s, r ≠ .str s)) := by
  constructor
  · rintro ⟨e, he⟩
    cases parsed with
    | null => exact Or.inl rfl
    | arr xs => exact absurd he (by simp [extractRows])
    | bool b => exact absurd he (by simp [extractRows])
    | num q => exact absurd he (by simp [extractRows])
    | str s => exact absurd he (by simp [extractRows])
    | obj fields =>
      refine Or.inr ⟨fields, ?_⟩
      simp only [extractRows] at he
      cases hg : objGet fields (lstr "results") with
      | none => rw [hg] at he; exact absurd he (by simp)
      | some r =>
        rw [hg] at he
        dsimp only at he
        by_cases ht : jsTruthy r = true
        · rw [if_pos ht] at he
          cases r with
          | arr xs => exact absurd he (by simp [jsIterate])
          | str s => exact absurd he (by simp [jsIterate])
          | null => exact absurd ht (by simp [jsTruthy])
          | bool b =>
            exact ⟨.bool b, rfl, rfl, ht,
              fun xs h => Json.noConfusion h, fun s h => Json.noConfusion h⟩
          | num q =>
            exact ⟨.num q, rfl, rfl, ht,
              fun xs h => Json.noConfusion h, fun s h => Json.noConfusion h⟩
          | obj fs =>
            exact ⟨.obj fs, rfl, rfl, ht,
              fun xs h => Json.noConfusion h, fun s h => Json.noConfusion h⟩
        · rw [if_neg ht] at he
          exact absurd he (by simp)
  · rintro (rfl | ⟨fields, r, rfl, hg, ht, har, hst⟩)
    · exact ⟨_, rfl⟩
    · simp only [extractRows]
      rw [hg]
      dsimp only
      rw [if_pos ht]
      cases r with
      | null => exact absurd ht (by simp [jsTruthy])
      | arr xs => exact absurd rfl (har xs)
      | str s => exact absurd rfl (hst s)
      | bool b => exact ⟨_, rfl⟩
      | num q => exact ⟨_, rfl⟩
      | obj fs => exact ⟨_, rfl⟩

/-- C7 amended: `parseQmdResults` never raises except when the parsed value
is JSON `null` or an object whose `results` field is truthy but not
iterable (truthy and neither an array nor a string), and it raises in
exactly those cases.  Otherwise: empty or non-JSON output, a scalar
top-level value, and an object whose `results` field is absent, falsy or a
string all parse to an empty result list; a raw JSON array and an object
with an array `results` field yield the processed rows; for each object
row, a missing or non-numeric `score` defaults to `0`, the snippet is taken
(trimmed) from the first of the `snippet`/`context`/`text`/`content` fields
holding a truthy value, and rows whose snippet text comes out empty are
dropped. -/
theorem parseQmdResults_amended (raw : List Char) :
    (trimChars raw = [] → parseQmdResults raw = .ok []) ∧
    (jsonParse (trimChars raw) = none → parseQmdResults raw = .ok []) ∧
    (∀ rows, jsonParse (trimChars raw) = some (.arr rows) →
      parseQmdResults raw = .ok (rows.filterMap processRow)) ∧
    (∀ fields rows, jsonParse (trimChars raw) = some (.obj fields) →
      objGet fields (lstr "results") = some (.arr rows) →
      parseQmdResults raw = .ok (rows.filterMap processRow)) ∧
    (∀ fields, (∀ q, objGet fields (lstr "score") ≠ some (.num q)) →
      ∀ res, processRow (.obj fields) = some res → res.score = 0) ∧
    (∀ fields res, processRow (.obj fields) = some res →
      res.snippet ≠ [] ∧
      res.snippet = trimChars (jsToString (firstTruthyField fields
        [lstr "snippet", lstr "context", lstr "text", lstr "content"]))) ∧
    (∀ fields, trimChars (jsToString (firstTruthyField fields
        [lstr "snippet", lstr "context", lstr "text", lstr "content"])) = [] →
      processRow (.obj fields) = none) ∧
    (∀ parsed, jsonParse (trimChars raw) = some parsed → parsed ≠ .null →
      (∀ xs, parsed ≠ .arr xs) → (∀ fs, parsed ≠ .obj fs) →
      parseQmdResults raw = .ok []) ∧
    (∀ fields, jsonParse (trimChars raw) = some (.obj fields) →
      objGet fields (lstr "results") = none → parseQmdResults raw = .ok []) ∧
    (∀ fields r, jsonParse (trimChars raw) = some (.obj fields) →
      objGet fields (lstr "results") = some r → jsTruthy r = false →
      parseQmdResults raw = .ok []) ∧
    (∀ fields s, jsonParse (trimChars raw) = some (.obj fields) →
      objGet fields (lstr "results") = some (.str s) →
      parseQmdResults raw = .ok []) ∧
    ((∃ e, parseQmdResults raw = .error e) ↔
      ∃ parsed, jsonParse (trimChars raw) = some parsed ∧
        (parsed = .null ∨
          ∃ fields r, parsed = .obj fields ∧
            objGet fields (lstr "results") = some r ∧ jsTruthy r = true ∧
            (∀ xs, r ≠ .arr xs) ∧ (∀ s, r ≠ .str s))) := by
  have hnil : jsonParse ([] : List Char) = none := rfl
  refine ⟨?_, ?_, ?_, ?_, ?_, ?_, ?_, ?_, ?_, ?_, ?_, ?_⟩
  · intro h
    simp [parseQmdResults, h]
  · intro h
    unfold parseQmdResults
    split
    · rfl
    · rw [h]
  · intro rows h
    have hne : trimChars raw ≠ [] := by
      intro h0
      rw [h0, hnil] at h
      exact Option.noConfusion h
    unfold parseQmdResults
    rw [if_neg hne, h]
    rfl
  · intro fields rows h h2
    have hne : trimChars raw ≠ [] := by
      intro h0
      rw [h0, hnil] at h
      exact Option.noConfusion h
    have hex : extractRows (.obj fields) = .ok rows := by
      simp [extractRows, h2, jsTruthy, jsIterate]
    unfold parseQmdResults
    rw [if_neg hne, h]
    show (match extractRows (Json.obj fields) with
      | Except.error e => Except.error e
      | Except.ok rows => Except.ok (rows.filterMap processRow)) =
      Except.ok (rows.filterMap processRow)
    rw [hex]
  · intro fields hq res h
    by_cases hc : trimChars (jsToString (firstTruthyField fields
        [lstr "snippet", lstr "context", lstr "text", lstr "content"])) = []
    · simp only [processRow] at h
      rw [if_pos hc] at h
      exact Option.noConfusion h
    · simp only [processRow] at h
      rw [if_neg hc] at h
      cases h
      cases hg : objGet fields (lstr "score") with
      | none => rfl
      | some v =>
        cases v with
        | num q => exact absurd hg (hq q)
        | null => rfl
        | bool b => rfl
        | str s => rfl
        | arr xs => rfl
        | obj fs => rfl
  · intro fields res h
    by_cases hc : trimChars (jsToString (firstTruthyField fields
        [lstr "snippet", lstr "context", lstr "text", lstr "content"])) = []
    · simp only [processRow] at h
      rw [if_pos hc] at h
      exact Option.noConfusion h
    · simp only [processRow] at h
      rw [if_neg hc] at h
      cases h
      exact ⟨hc, rfl⟩
  · intro fields h
    simp only [processRow]
    rw [if_pos h]
  · intro parsed hj hnull harr hobj
    have hne : trimChars raw ≠ [] := by
      intro h0
      rw [h0, hnil] at hj
      exact Option.noConfusion hj
    unfold parseQmdResults
    rw [if_neg hne, hj]
    cases parsed with
    | null => exact absurd rfl hnull
    | arr xs => exact absurd rfl (harr xs)
    | obj fs => exact absurd rfl (hobj fs)
    | bool b => rfl
    | num q => rfl
    | str s => rfl
  · intro fields hj hg
    have hne : trimChars raw ≠ [] := by
      intro h0
      rw [h0, hnil] at hj
      exact Option.noConfusion hj
    have hex : extractRows (.obj fields) = .ok [] := by
      simp [extractRows, hg]
    unfold parseQmdResults
    rw [if_neg hne, hj]
    show (match extractRows (Json.obj fields) with
      | Except.error e => Except.error e
      | Except.ok rows => Except.ok (rows.filterMap processRow)) = Except.ok []
    rw [hex]
    rfl
  · intro fields r hj hg ht
    have hne : trimChars raw ≠ [] := by
      intro h0
      rw [h0, hnil] at hj
      exact Option.noConfusion hj
    have hex : extractRows (.obj fields) = .ok [] := by
      simp [extractRows, hg, ht]
    unfold parseQmdResults
    rw [if_neg hne, hj]
    show (match extractRows (Json.obj fields) with
      | Except.error e => Except.error e
      | Except.ok rows => Except.ok (rows.filterMap processRow)) = Except.ok []
    rw [hex]
    rfl
  · intro fields s hj hg
    have hne : trimChars raw ≠ [] := by
      intro h0
      rw [h0, hnil] at hj
      exact Option.noConfusion hj
    unfold parseQmdResults
    rw [if_neg hne, hj]
    cases s with
    | nil =>
      have hex : extractRows (.obj fields) = .ok [] := by
        simp [extractRows, hg, jsTruthy]
      show (match extractRows (Json.obj fields) with
        | Except.error e => Except.error e
        | Except.ok rows => Except.ok (rows.filterMap processRow)) = Except.ok []
      rw [hex]
      rfl
    | cons c cs =>
      have hex : extractRows (.obj fields) =
          .ok ((c :: cs).map (fun d => Json.str [d])) := by
        simp [extractRows, hg, jsTruthy, jsIterate]
      show (match extractRows (Json.obj fields) with
        | Except.error e => Except.error e
        | Except.ok rows => Except.ok (rows.filterMap processRow)) = Except.ok []
      rw [hex]
      exact congrArg Except.ok (strRows_filterMap (c :: cs))
  · constructor
    · rintro ⟨e, he⟩
      unfold parseQmdResults at he
      by_cases h0 : trimChars raw = []
      · rw [if_pos h0] at he
        exact absurd he (by simp)
      · rw [if_neg h0] at he
        cases hj : jsonParse (trimChars raw) with
        | none =>
          rw [hj] at he
          exact absurd he (by simp)
        | some parsed =>
          rw [hj] at he
          dsimp only at he
          cases hex : extractRows parsed with
          | ok rows =>
            rw [hex] at he
            exact absurd he (by simp)
          | error e2 =>
            exact ⟨parsed, rfl, (extractRows_error_iff parsed).1 ⟨e2, hex⟩⟩
    · rintro ⟨parsed, hj, hcase⟩
      obtain ⟨e, hex⟩ := (extractRows_error_iff parsed).2 hcase
      have hne : trimChars raw ≠ [] := by
        intro h0
        rw [h0, hnil] at hj
        exact Option.noConfusion hj
      refine ⟨e, ?_⟩
      unfold parseQmdResults
      rw [if_neg hne, hj]
      show (match extractRows parsed with
        | Except.error e => Except.error e
        | Except.ok rows => Except.ok (rows.filterMap processRow)) = Except.error e
      rw [hex]

/-- C7 witness: concrete instances of the amended theorem on non-JSON
output, on empty output and on a scalar top-level value. -/
theorem parseQmdResults_amended_witness :
    parseQmdResults (lstr "not json") = .ok [] ∧
      parseQmdResults (lstr "  ") = .ok [] ∧
      parseQmdResults (lstr "true") = .ok [] :=
  ⟨(parseQmdResults_amended (lstr "not json")).2.1 rfl,
   (parseQmdResults_amended (lstr "  ")).1 rfl,
   (parseQmdResults_amended (lstr "true")).2.2.2.2.2.2.2.1 (Json.bool true) rfl
     (fun h => Json.noConfusion h) (fun _ h => Json.noConfusion h)
     (fun _ h => Json.noConfusion h)⟩

/-! ### Turn hydration and reranking
(`parseTurnSections` / `loadTurnSectionsFromSource` / `rerankAndHydrateResults`,
memory.ts:340-421)

The file system is an explicit environment.  `path.join` is modelled as a
slash join (no `..` segments occur in the claims). -/

/-- The file-system environment visible to hydration. -/
structure FsEnv where
  tinyclawHome : List Char
  fileExists : List Char → Bool
  readFileSync : List Char → Except (List Char) (List Char)

def pathJoin (a b : List Char) : List Char := a ++ '/' :: b

/-- `sanitizeId(raw)` (memory.ts:106-108): lower-case, then map every
character outside `[a-z0-9_-]` to a dash. -/
def sanitizeId (raw : List Char) : List Char :=
  raw.map (fun c =>
    let lc := asciiLower c
    if ('a' ≤ lc && lc ≤ 'z') || lc.isDigit || lc = '_' || lc = '-' then lc
    else '-')

def MEMORY_ROOT (env : FsEnv) : List Char := pathJoin env.tinyclawHome (lstr "memory")

def MEMORY_TURNS_DIR (env : FsEnv) : List Char := pathJoin (MEMORY_ROOT env) (lstr "turns")

def getAgentTurnsDir (env : FsEnv) (agentId : List Char) : List Char :=
  pathJoin (MEMORY_TURNS_DIR env) (sanitizeId agentId)

def getCollectionName (agentId : List Char) : List Char :=
  lstr "tinyclaw-" ++ sanitizeId agentId

/-- First occurrence of `pat` in `s` (`String.prototype.indexOf`; `none`
models the return value `-1`). -/
def indexOfSub : List Char → List Char → Option Nat
  | s, pat =>
    if pat.isPrefixOf s then some 0
    else
      match s with
      | [] => none
      | _ :: t => (indexOfSub t pat).map (· + 1)

/-- `hay.includes(pat)`. -/
def containsSub (s pat : List Char) : Bool := (indexOfSub s pat).isSome

def lowerList (s : List Char) : List Char := s.map asciiLower

/-- Case-insensitive containment (ASCII folding, for the `/i` regex flag). -/
def containsCI (s pat : List Char) : Bool := containsSub (lowerList s) (lowerList pat)

/-- The two turn-file section markers. -/
def userMarker : List Char := lstr "\n## User\n"

def assistantMarker : List Char := lstr "\n## Assistant\n"

/-- The sections of a persisted turn file. -/
structure TurnSections where
  user : List Char
  assistant : List Char
deriving DecidableEq

/-- `parseTurnSections(content)` (memory.ts:351-364): slice between the
first occurrences of the two markers; empty sections when a marker is
missing or out of order. -/
def parseTurnSections (content : List Char) : TurnSections :=
  match indexOfSub content userMarker, indexOfSub content assistantMarker with
  | some userPos, some assistantPos =>
    if assistantPos ≤ userPos then { user := [], assistant := [] }
    else
      { user := trimChars ((content.drop (userPos + userMarker.length)).take
          (assistantPos - (userPos + userMarker.length)))
        assistant := trimChars (content.drop (assistantPos + assistantMarker.length)) }
  | _, _ => { user := [], assistant := [] }

/-- A JavaScript line terminator (not matched by `.` in a regex). -/
def isLineTerm (c : Char) : Bool :=
  c = '\n' || c = '\r' || c = ' ' || c = ' '

/-- `source.match(/^qmd:\/\/[^/]+\/(.+)$/)`: the captured group, or `none`
when the pattern does not match (the host part must be nonempty, the rest
must be nonempty and must not contain a line terminator, which `.` cannot
match). -/
def qmdSourceMatch (source : List Char) : Option (List Char) :=
  if (lstr "qmd://").isPrefixOf source then
    let rest := source.drop 6
    let host := rest.takeWhile (fun c => c ≠ '/')
    if host.isEmpty then none
    else if rest.length ≤ host.length then none
    else
      let rel := rest.drop (host.length + 1)
      if rel = [] then none
      else if rel.any isLineTerm then none
      else some rel
  else none

/-- Byte class of a UTF-8 leading byte: its sequence length (`0xC0`/`0xC1`
and `0xF5`-`0xFF` are invalid). -/
def utf8Len (b : Nat) : Option Nat :=
  if b < 0x80 then some 1
  else if 0xC2 ≤ b && b ≤ 0xDF then some 2
  else if 0xE0 ≤ b && b ≤ 0xEF then some 3
  else if 0xF0 ≤ b && b ≤ 0xF4 then some 4
  else none

def isUtf8Cont (b : Nat) : Bool := 0x80 ≤ b && b ≤ 0xBF

/-- The second-byte range restrictions ruling out overlong encodings and
surrogates (`E0 A0..BF`, `ED 80..9F`, `F0 90..BF`, `F4 80..8F`). -/
def utf8SecondOk (b1 b2 : Nat) : Bool :=
  if b1 = 0xE0 then 0xA0 ≤ b2 && b2 ≤ 0xBF
  else if b1 = 0xED then 0x80 ≤ b2 && b2 ≤ 0x9F
  else if b1 = 0xF0 then 0x90 ≤ b2 && b2 ≤ 0xBF
  else if b1 = 0xF4 then 0x80 ≤ b2 && b2 ≤ 0x8F
  else isUtf8Cont b2

def pctByte (h1 h2 : Char) : Option Nat :=
  match hexVal h1, hexVal h2 with
  | some a, some b => some (a * 16 + b)
  | _, _ => none

/-- `decodeURIComponent` (ECMAScript `Decode`): percent escapes become
bytes, multi-byte sequences must be complete consecutive escapes forming
strictly valid UTF-8; any malformation throws a URIError, modelled by
`none`. -/
def decodeURIComponentM : List Char → Option (List Char)
  | [] => some []
  | '%' :: h1 :: h2 :: rest =>
    match pctByte h1 h2 with
    | none => none
    | some b =>
      match utf8Len b with
      | some 1 => (decodeURIComponentM rest).map (fun t => Char.ofNat b :: t)
      | some 2 =>
        match rest with
        | '%' :: g1 :: g2 :: r2 =>
          match pctByte g1 g2 with
          | some b2 =>
            if isUtf8Cont b2 then
              (decodeURIComponentM r2).map
                (fun t => Char.ofNat ((b - 0xC0) * 64 + (b2 - 0x80)) :: t)
            else none
          | none => none
        | _ => none
      | some 3 =>
        match rest with
        | '%' :: g1 :: g2 :: '%' :: k1 :: k2 :: r2 =>
          match pctByte g1 g2, pctByte k1 k2 with
          | some b2, some b3 =>
            if utf8SecondOk b b2 && isUtf8Cont b3 then
              (decodeURIComponentM r2).map
                (fun t => Char.ofNat
                  (((b - 0xE0) * 64 + (b2 - 0x80)) * 64 + (b3 - 0x80)) :: t)
            else none
          | _, _ => none
        | _ => none
      | some _ =>
        match rest with
        | '%' :: g1 :: g2 :: '%' :: k1 :: k2 :: '%' :: m1 :: m2 :: r2 =>
          match pctByte g1 g2, pctByte k1 k2, pctByte m1 m2 with
          | some b2, some b3, some b4 =>
            if utf8SecondOk b b2 && isUtf8Cont b3 && isUtf8Cont b4 then
              (decodeURIComponentM r2).map
                (fun t => Char.ofNat
                  ((((b - 0xF0) * 64 + (b2 - 0x80)) * 64 + (b3 - 0x80)) * 64 +
                    (b4 - 0x80)) :: t)
            else none
          | _, _, _ => none
        | _ => none
      | none => none
  | '%' :: _ => none
  | c :: rest => (decodeURIComponentM rest).map (fun t => c :: t)

/-- `loadTurnSectionsFromSource(source, agentId)` (memory.ts:366-382).  The
try block covers only the read and parse; a URIError from
`decodeURIComponent` (line 371) propagates. -/
def loadTurnSectionsFromSource (env : FsEnv) (source agentId : List Char) :
    Except (List Char) (Option TurnSections) :=
  match qmdSourceMatch source with
  | none => .ok none
  | some rel =>
    match decodeURIComponentM rel with
    | none => .error (lstr "URIError: URI malformed")
    | some decoded =>
      if env.fileExists (pathJoin (getAgentTurnsDir env agentId) decoded) = false then
        .ok none
      else
        match env.readFileSync (pathJoin (getAgentTurnsDir env agentId) decoded) with
        | .error _ => .ok none
        | .ok content => .ok (some (parseTurnSections content))

/-- `normalizeInline(text)` (memory.ts:340-342). -/
def normalizeInline (text : List Char) : List Char := trimChars (collapseWs text)

/-- `truncateInline(text, max)` (memory.ts:344-349). -/
def truncateInline (text : List Char) (max : Nat) : List Char :=
  if text.length ≤ max then text else text.take max ++ lstr "..."

/-- The `没有.*信息` alternative: an occurrence of the first phrase followed,
with no line terminator between, by the second. -/
def zhNoInfo (t : List Char) : Bool :=
  t.tails.any (fun suf =>
    (lstr "没有").isPrefixOf suf &&
    containsSub ((suf.drop 2).takeWhile (fun c => !isLineTerm c)) (lstr "信息"))

def dontHaveAnyInfo : List Char := lstr "don" ++ '\'' :: lstr "t have any information"

def iDontHave : List Char := lstr "i don" ++ '\'' :: lstr "t have"

/-- `isLowConfidenceAnswer(text)` (memory.ts:384-386). -/
def isLowConfidenceAnswer (text : List Char) : Bool :=
  containsCI text (lstr "不知道") || zhNoInfo text || containsCI text (lstr "无法") ||
  containsCI text (lstr "不清楚") || containsCI text (lstr "need more context") ||
  containsCI text dontHaveAnyInfo || containsCI text iDontHave ||
  containsCI text (lstr "not enough information")

/-- The identity/preference cue regex `/代号|key|code|是|喜欢|likes?/i`
(`likes?` matches whenever `like` occurs). -/
def hasIdentityCue (text : List Char) : Bool :=
  containsCI text (lstr "代号") || containsCI text (lstr "key") ||
  containsCI text (lstr "code") || containsCI text (lstr "是") ||
  containsCI text (lstr "喜欢") || containsCI text (lstr "like")

def isUpper (c : Char) : Bool := 'A' ≤ c && c ≤ 'Z'

def isUpperDigit (c : Char) : Bool := isUpper c || c.isDigit

/-- Count the maximal run of `-[A-Z0-9]+` groups and return the remainder.
`fuel` only serves totality. -/
def codeGroupsAux : Nat → List Char → Nat × List Char
  | 0, s => (0, s)
  | fuel + 1, s =>
    match s with
    | '-' :: rest =>
      if (rest.takeWhile isUpperDigit).isEmpty then (0, s)
      else
        ((codeGroupsAux fuel (rest.drop (rest.takeWhile isUpperDigit).length)).1 + 1,
         (codeGroupsAux fuel (rest.drop (rest.takeWhile isUpperDigit).length)).2)
    | _ => (0, s)

/-- One attempted match of `[A-Z]{3,}(?:-[A-Z0-9]+){2,}\b` at the start of
`s` (the left boundary is checked by the caller).  With `g` maximal groups:
`g ≥ 3` always matches (the match can end before the last dash, which is a
word boundary); `g = 2` needs a right word boundary after the second group;
fewer groups never match. -/
def codeMatchAt (s : List Char) : Bool :=
  if (s.takeWhile isUpper).length < 3 then false
  else
    let rest := s.drop (s.takeWhile isUpper).length
    let gr := codeGroupsAux rest.length rest
    if 3 ≤ gr.1 then true
    else if gr.1 = 2 then
      (match gr.2.head? with
        | none => true
        | some c => !isWordChar c)
    else false

def hasCodeTokenAux : Option Char → List Char → Bool
  | _, [] => false
  | prev, c :: rest =>
    ((match prev with
      | none => true
      | some p => !isWordChar p) && codeMatchAt (c :: rest)) ||
    hasCodeTokenAux (some c) rest

/-- `codePattern.test(text)` for `/\b[A-Z]{3,}(?:-[A-Z0-9]+){2,}\b/`. -/
def hasCodeToken (text : List Char) : Bool := hasCodeTokenAux none text

def isTokenChar (c : Char) : Bool :=
  ('a' ≤ c && c ≤ 'z') || c.isDigit || c = '_' || c = '-'

def isCJK (c : Char) : Bool := 0x4E00 ≤ c.toNat && c.toNat ≤ 0x9FFF

/-- The global match `/[a-z0-9_-]{2,}|[一-鿿]{1,3}/g` over the
lower-cased message: maximal Latin token runs of length at least two, and
CJK runs taken (greedily) up to three characters.  `fuel` only serves
totality. -/
def tokenizeAux : Nat → List Char → List (List Char)
  | 0, _ => []
  | _ + 1, [] => []
  | fuel + 1, c :: rest =>
    if isTokenChar c then
      if 2 ≤ ((c :: rest).takeWhile isTokenChar).length then
        (c :: rest).takeWhile isTokenChar ::
          tokenizeAux fuel ((c :: rest).drop ((c :: rest).takeWhile isTokenChar).length)
      else tokenizeAux fuel rest
    else if isCJK c then
      ((c :: rest).takeWhile isCJK).take 3 ::
        tokenizeAux fuel ((c :: rest).drop (((c :: rest).takeWhile isCJK).take 3).length)
    else tokenizeAux fuel rest

def tokenize (s : List Char) : List (List Char) := tokenizeAux s.length s

/-- `Array.from(new Set(tokens))`: deduplicate keeping first occurrences. -/
def dedupFirstAux (seen : List (List Char)) : List (List Char) → List (List Char)
  | [] => []
  | x :: xs =>
    if seen.contains x then dedupFirstAux seen xs
    else x :: dedupFirstAux (x :: seen) xs

def dedupFirst (l : List (List Char)) : List (List Char) := dedupFirstAux [] l

/-- The per-hit adjustment of `rerankAndHydrateResults` (the map callback,
memory.ts:396-419) given the hydration outcome for the source of the hit.
Score adjustments use exact rational arithmetic. -/
def adjustHit (terms : List (List Char)) (sections? : Option TurnSections)
    (result : QmdResult) : QmdResult :=
  match sections? with
  | some sections =>
    if sections.assistant ≠ [] then
      { score := result.score +
          (if hasCodeToken (normalizeInline sections.assistant) then 0.5 else 0) +
          (if hasIdentityCue (normalizeInline sections.assistant) then 0.2 else 0) +
          (if isLowConfidenceAnswer (normalizeInline sections.assistant) then -0.5 else 0) +
          0.04 * ((terms.filter (fun t =>
            containsSub (lowerList (normalizeInline sections.user ++
              ' ' :: normalizeInline sections.assistant)) t)).length : ℚ)
        snippet := if normalizeInline sections.assistant ≠ [] then
            lstr "User: " ++ truncateInline (normalizeInline sections.user) 180 ++
            '\n' :: lstr "Assistant: " ++
              truncateInline (normalizeInline sections.assistant) 260
          else result.snippet
        source := result.source }
    else { score := result.score, snippet := result.snippet, source := result.source }
  | none => { score := result.score, snippet := result.snippet, source := result.source }

/-- `Array.prototype.map` with a callback that can throw: evaluation stops
at the first throwing element. -/
def mapHits (env : FsEnv) (terms : List (List Char)) (agentId : List Char) :
    List QmdResult → Except (List Char) (List QmdResult)
  | [] => .ok []
  | r :: rs =>
    match loadTurnSectionsFromSource env r.source agentId with
    | .error e => .error e
    | .ok s =>
      match mapHits env terms agentId rs with
      | .error e => .error e
      | .ok rest => .ok (adjustHit terms s r :: rest)

/-- Stable insertion into a descending-by-score list: an element is placed
before the first element whose score is not larger, so equal scores keep
their original order. -/
def insertDesc (r : QmdResult) : List QmdResult → List QmdResult
  | [] => [r]
  | x :: xs => if r.score < x.score then x :: insertDesc r xs else r :: x :: xs

/-- `results.sort((a, b) => b.score - a.score)`: ECMAScript sort is required
to be stable, and every stable descending sort computes the same list, so a
stable insertion sort is an exact model. -/
def sortByScoreDesc : List QmdResult → List QmdResult
  | [] => []
  | r :: rs => insertDesc r (sortByScoreDesc rs)

/-- `rerankAndHydrateResults(results, message, agentId)` (memory.ts:388-421). -/
def rerankAndHydrateResults (env : FsEnv) (results : List QmdResult)
    (message agentId : List Char) : Except (List Char) (List QmdResult) :=
  if results = [] then .ok results
  else
    match mapHits env (dedupFirst (tokenize (lowerList message))) agentId results with
    | .error e => .error e
    | .ok mapped => .ok (sortByScoreDesc mapped)

/-- A hit whose source has a malformed percent escape in its path part. -/
def cexHit : QmdResult := { score := 0, snippet := lstr "s", source := lstr "qmd://h/%" }

/-- A concrete file-system environment with no files. -/
def cexFs : FsEnv :=
  { tinyclawHome := lstr "/h"
    fileExists := fun _ => false
    readFileSync := fun _ => .error [] }

/-- C9 counterexample: `rerankAndHydrateResults` does not return a list for
every input.  A hit whose source is `qmd://h/%` reaches
`decodeURIComponent("%")`, which throws a URIError outside the try block of
`loadTurnSectionsFromSource`, so the whole rerank call raises instead of
passing the non-hydratable hit through. -/
theorem rerank_frame_cex :
    rerankAndHydrateResults cexFs [cexHit] (lstr "m") (lstr "a") =
      .error (lstr "URIError: URI malformed") := by
  rfl

lemma adjustHit_source (terms : List (List Char)) (s? : Option TurnSections)
    (r : QmdResult) : (adjustHit terms s? r).source = r.source := by
  unfold adjustHit
  cases s? with
  | none => rfl
  | some s =>
    dsimp only
    split
    · rfl
    · rfl

lemma adjustHit_none (terms : List (List Char)) (r : QmdResult) :
    adjustHit terms none r = r := by
  obtain ⟨a, b, c⟩ := r
  rfl

lemma insertDesc_perm (r : QmdResult) (l : List QmdResult) :
    (insertDesc r l).Perm (r :: l) := by
  induction l with
  | nil => exact List.Perm.refl _
  | cons x xs ih =>
    unfold insertDesc
    split
    · exact ((ih.cons x).trans (List.Perm.swap r x xs))
    · exact List.Perm.refl _

lemma sortByScoreDesc_perm (l : List QmdResult) :
    (sortByScoreDesc l).Perm l := by
  induction l with
  | nil => exact List.Perm.refl _
  | cons r rs ih =>
    exact (insertDesc_perm r (sortByScoreDesc rs)).trans (ih.cons r)

lemma mapHits_ok (env : FsEnv) (terms : List (List Char)) (agentId : List Char) :
    ∀ (l : List QmdResult)
      (f : QmdResult → Option TurnSections),
      (∀ r ∈ l, loadTurnSectionsFromSource env r.source agentId = .ok (f r)) →
      mapHits env terms agentId l = .ok (l.map (fun r => adjustHit terms (f r) r)) := by
  intro l
  induction l with
  | nil => intro f _; rfl
  | cons r rs ih =>
    intro f hf
    unfold mapHits
    rw [hf r (List.mem_cons_self _ _), ih f (fun x hx => hf x (List.mem_cons_of_mem _ hx))]
    rfl

/-- C9 amended: provided no hit's source triggers a URI-decoding error (for
every hit whose source matches the `qmd://` pattern, the captured path part
percent-decodes), `rerankAndHydrateResults` returns a list of the same
length whose multiset of source fields is exactly that of the input (it
only adjusts scores, replaces snippets and reorders), and every hit whose
source cannot be hydrated passes through unchanged as an element of the
output. -/
theorem rerank_frame_amended (env : FsEnv) (results : List QmdResult)
    (message agentId : List Char)
    (hdec : ∀ r ∈ results, ∀ rel, qmdSourceMatch r.source = some rel →
      decodeURIComponentM rel ≠ none) :
    ∃ out, rerankAndHydrateResults env results message agentId = .ok out ∧
      out.length = results.length ∧
      (out.map (fun r => r.source)).Perm (results.map (fun r => r.source)) ∧
      ∀ h ∈ results,
        loadTurnSectionsFromSource env h.source agentId = .ok none → h ∈ out := by
  rcases hres : results with _ | ⟨r0, rs0⟩
  · exact ⟨[], by simp [rerankAndHydrateResults], rfl, List.Perm.refl _, by simp⟩
  · rw [← hres]
    have hload : ∀ r ∈ results, ∃ v,
        loadTurnSectionsFromSource env r.source agentId = .ok v := by
      intro r hr
      unfold loadTurnSectionsFromSource
      cases hm : qmdSourceMatch r.source with
      | none => exact ⟨none, rfl⟩
      | some rel =>
        cases hd : decodeURIComponentM rel with
        | none => exact absurd hd (hdec r hr rel hm)
        | some decoded =>
          by_cases hex :
              env.fileExists (pathJoin (getAgentTurnsDir env agentId) decoded) = false
          · exact ⟨none, by simp [hd, hex]⟩
          · cases hread : env.readFileSync (pathJoin (getAgentTurnsDir env agentId) decoded) with
            | error e => exact ⟨none, by simp [hd, hex, hread]⟩
            | ok content => exact ⟨some (parseTurnSections content), by simp [hd, hex, hread]⟩
    classical
    set f : QmdResult → Option TurnSections := fun r =>
      match loadTurnSectionsFromSource env r.source agentId with
      | .ok v => v
      | .error _ => none with hfdef
    have hf : ∀ r ∈ results, loadTurnSectionsFromSource env r.source agentId = .ok (f r) := by
      intro r hr
      obtain ⟨v, hv⟩ := hload r hr
      rw [hfdef]
      dsimp only
      rw [hv]
    set terms := dedupFirst (tokenize (lowerList message)) with hterms
    have hmap := mapHits_ok env terms agentId results f hf
    have hne : results ≠ [] := by rw [hres]; exact List.cons_ne_nil _ _
    refine ⟨sortByScoreDesc (results.map (fun r => adjustHit terms (f r) r)), ?_, ?_, ?_, ?_⟩
    · unfold rerankAndHydrateResults
      rw [if_neg hne, ← hterms, hmap]
    · rw [(sortByScoreDesc_perm _).length_eq, List.length_map]
    · refine ((sortByScoreDesc_perm _).map (fun r => r.source)).trans ?_
      rw [List.map_map]
      have : ((fun r => r.source) ∘ fun r => adjustHit terms (f r) r) =
          fun r => r.source := by
        funext r
        exact adjustHit_source terms (f r) r
      rw [this]
    · intro h hh hnone
      have hfh : f h = none := by
        rw [hfdef]
        dsimp only
        rw [hnone]
      refine (sortByScoreDesc_perm _).mem_iff.2 ?_
      refine List.mem_map.2 ⟨h, hh, ?_⟩
      rw [hfh, adjustHit_none]

/-- A hit whose source does not match the `qmd://` locator pattern. -/
def wHit : QmdResult := { score := 0, snippet := lstr "s", source := lstr "x" }

/-- C9 witness: concrete instance of the amended theorem. -/
theorem rerank_frame_amended_witness :
    ∃ out, rerankAndHydrateResults cexFs [wHit] (lstr "m") (lstr "a") = .ok out ∧
      out.length = [wHit].length ∧
      (out.map (fun r => r.source)).Perm ([wHit].map (fun r => r.source)) ∧
      ∀ h ∈ [wHit],
        loadTurnSectionsFromSource cexFs h.source (lstr "a") = .ok none → h ∈ out :=
  rerank_frame_amended cexFs [wHit] (lstr "m") (lstr "a") (by
    intro r hr rel hm
    rw [List.mem_singleton] at hr
    subst hr
    rw [show qmdSourceMatch wHit.source = none from rfl] at hm
    exact Option.noConfusion hm)

/-! ### Turn persistence (`saveTurnToMemory`, memory.ts:613-663)

`turnFileContent` is the file content written by `saveTurnToMemory` (the
join of the `lines` array, memory.ts:641-659).  The ISO timestamp string
produced by `Date.toISOString` is passed in as a parameter; the file name
is irrelevant to the round-trip claim. -/

/-- `truncate(text, max = 16000)` (memory.ts:617-622). -/
def truncate (text : List Char) (max : Nat) : List Char :=
  if text.length ≤ max then text else text.take max ++ lstr "\n\n[truncated]"

/-- The content written for one turn: `lines.join('\n')`. -/
def turnFileContent (agentId name channel sender messageId tsIso
    userMessage agentResponse : List Char) : List Char :=
  List.intercalate (lstr "\n")
    [lstr "# Turn for @" ++ agentId ++ lstr " (" ++ name ++ lstr ")",
     [],
     lstr "- Timestamp: " ++ tsIso,
     lstr "- Channel: " ++ channel,
     lstr "- Sender: " ++ sender,
     lstr "- Message ID: " ++ messageId,
     [],
     lstr "## User",
     [],
     truncate userMessage 16000,
     [],
     lstr "## Assistant",
     [],
     truncate agentResponse 16000,
     []]

lemma indexOfSub_cons (c : Char) (s pat : List Char) :
    indexOfSub (c :: s) pat =
      if pat.isPrefixOf (c :: s) then some 0 else (indexOfSub s pat).map (· + 1) := rfl

lemma not_prefix_head {a b : Char} (h : (a == b) = false) (p s : List Char) :
    (a :: p).isPrefixOf (b :: s) = false := by
  show (a == b && p.isPrefixOf s) = false
  rw [h]
  rfl

lemma prefix_pad : ∀ (x : List Char) (c : Char) (r : List Char),
    (x ++ [c]).isPrefixOf (x ++ c :: r) = true := by
  intro x
  induction x with
  | nil =>
    intro c r
    show (c == c && List.isPrefixOf [] r) = true
    simp
  | cons d x ih =>
    intro c r
    show (d == d && (x ++ [c]).isPrefixOf (x ++ c :: r)) = true
    simp [ih]

/-- A padded line `w\n` is never a prefix of a different newline-free line
followed by a newline. -/
lemma not_prefix_pad : ∀ (u w : List Char), '\n' ∉ w → '\n' ∉ u → u ≠ w →
    ∀ rest, (w ++ ['\n']).isPrefixOf (u ++ '\n' :: rest) = false := by
  intro u
  induction u with
  | nil =>
    intro w hw _ hne rest
    cases w with
    | nil => exact absurd rfl hne.symm
    | cons c w' =>
      show (c == '\n' && (w' ++ ['\n']).isPrefixOf rest) = false
      have : (c == '\n') = false := by
        simp only [beq_eq_false_iff_ne]
        intro h
        exact hw (h ▸ List.mem_cons_self c w')
      rw [this]
      rfl
  | cons c u' ih =>
    intro w hw hu hne rest
    cases w with
    | nil =>
      show ('\n' == c && List.isPrefixOf [] (u' ++ '\n' :: rest)) = false
      have : ('\n' == c) = false := by
        simp only [beq_eq_false_iff_ne]
        intro h
        exact hu (h ▸ List.mem_cons_self c u')
      rw [this]
      rfl
    | cons d w' =>
      show (d == c && (w' ++ ['\n']).isPrefixOf (u' ++ '\n' :: rest)) = false
      by_cases hdc : d = c
      · subst hdc
        have hne' : u' ≠ w' := by
          intro h
          exact hne (by rw [h])
        rw [ih w' (fun h => hw (List.mem_cons_of_mem _ h))
          (fun h => hu (List.mem_cons_of_mem _ h)) hne' rest]
        simp
      · rw [show (d == c) = false by simp [hdc]]
        rfl

/-- Scanning for a pattern that starts with a newline skips any
newline-free segment. -/
lemma fm_append (l : List Char) (rest p : List Char) (hl : '\n' ∉ l) :
    indexOfSub (l ++ rest) ('\n' :: p) =
      (indexOfSub rest ('\n' :: p)).map (· + l.length) := by
  induction l with
  | nil =>
    show indexOfSub rest ('\n' :: p) = (indexOfSub rest ('\n' :: p)).map (· + 0)
    cases indexOfSub rest ('\n' :: p) <;> simp
  | cons c l ih =>
    have hc : (('\n' : Char) == c) = false := by
      simp only [beq_eq_false_iff_ne]
      intro h
      exact hl (h ▸ List.mem_cons_self c l)
    have hl' : '\n' ∉ l := fun h => hl (List.mem_cons_of_mem _ h)
    show indexOfSub (c :: (l ++ rest)) ('\n' :: p) = _
    rw [indexOfSub_cons, not_prefix_head hc, ih hl']
    cases indexOfSub rest ('\n' :: p) with
    | none => rfl
    | some k =>
      show some (k + l.length + 1) = some (k + (l.length + 1))
      rw [Nat.add_assoc]

/-- Scanning steps over a newline at which the rest does not match. -/
lemma fm_cons_step (rest p : List Char) (hnp : p.isPrefixOf rest = false) :
    indexOfSub ('\n' :: rest) ('\n' :: p) =
      (indexOfSub rest ('\n' :: p)).map (· + 1) := by
  rw [indexOfSub_cons]
  rw [show ('\n' :: p).isPrefixOf ('\n' :: rest) = false by
    show (('\n' : Char) == '\n' && p.isPrefixOf rest) = false
    rw [hnp]
    rfl]
  rfl

/-- Scanning stops at a newline at which the rest matches. -/
lemma fm_cons_hit (rest p : List Char) (hp : p.isPrefixOf rest = true) :
    indexOfSub ('\n' :: rest) ('\n' :: p) = some 0 := by
  rw [indexOfSub_cons]
  rw [show ('\n' :: p).isPrefixOf ('\n' :: rest) = true by
    show (('\n' : Char) == '\n' && p.isPrefixOf rest) = true
    rw [hp]
    rfl]
  rfl

lemma drop_of_len (x y : List Char) (k n : Nat) (hk : k = x.length) :
    (x ++ y).drop (k + n) = y.drop n := by
  rw [hk, List.drop_append]

lemma trim_stable_head {u : List Char} {c : Char} {t : List Char}
    (hut : trimChars u = u) (hcons : u = c :: t) : isJsWs c = false :=
  trimChars_head_false (by rw [hut, hcons])

lemma trim_stable_last {u : List Char} {d : Char}
    (hut : trimChars u = u) (hlast : u.getLast? = some d) : isJsWs d = false :=
  trimChars_getLast_false (by rw [hut]; exact hlast)

/-- Trimming a trim-stable text wrapped in single newlines recovers it. -/
lemma trim_wrap (u : List Char) (hut : trimChars u = u) :
    trimChars ('\n' :: (u ++ ['\n'])) = u := by
  by_cases hu0 : u = []
  · subst hu0
    decide
  · obtain ⟨c, t, hct⟩ : ∃ c t, u = c :: t := by
      cases u with
      | nil => exact absurd rfl hu0
      | cons c t => exact ⟨c, t, rfl⟩
    have hc : isJsWs c = false := trim_stable_head hut hct
    obtain ⟨p, d, hpd, hd⟩ : ∃ p d, u = p ++ [d] ∧ isJsWs d = false := by
      rcases List.eq_nil_or_concat u with h0 | ⟨p, d, hpd⟩
      · exact absurd h0 hu0
      · refine ⟨p, d, by rw [hpd, List.concat_eq_append], ?_⟩
        exact trim_stable_last hut (by
          rw [hpd, List.concat_eq_append,
            List.getLast?_append_of_ne_nil _ (List.cons_ne_nil d [])]
          rfl)
    have h1 : ('\n' :: (u ++ ['\n'])).dropWhile isJsWs = u ++ ['\n'] := by
      rw [List.dropWhile_cons]
      rw [show isJsWs '\n' = true from rfl]
      simp only [if_true]
      rw [hct, List.cons_append]
      exact dropWhile_cons_of_neg hc _
    have h2 : (u ++ ['\n']).reverse.dropWhile isJsWs = u.reverse := by
      rw [List.reverse_append]
      show ('\n' :: u.reverse).dropWhile isJsWs = u.reverse
      rw [List.dropWhile_cons]
      rw [show isJsWs '\n' = true from rfl]
      simp only [if_true]
      rw [hpd, List.reverse_append]
      show (d :: p.reverse).dropWhile isJsWs = d :: p.reverse
      exact dropWhile_cons_of_neg hd _
    unfold trimChars
    rw [h1, h2, List.reverse_reverse]

/-- `parseTurnSections` when both markers occur, the user one first. -/
lemma parseTurnSections_eq_of {content : List Char} {pu pa : Nat}
    (hu : indexOfSub content userMarker = some pu)
    (ha : indexOfSub content assistantMarker = some pa)
    (hlt : pu < pa) :
    parseTurnSections content =
      { user := trimChars ((content.drop (pu + 9)).take (pa - (pu + 9)))
        assistant := trimChars (content.drop (pa + 14)) } := by
  unfold parseTurnSections
  rw [hu, ha]
  show (if pa ≤ pu then ({ user := [], assistant := [] } : TurnSections)
    else
      { user := trimChars ((content.drop (pu + userMarker.length)).take
          (pa - (pu + userMarker.length)))
        assistant := trimChars (content.drop (pa + assistantMarker.length)) }) = _
  rw [if_neg (by omega)]
  rfl

lemma len_lit1 : (lstr "# Turn for @").length = 12 := rfl
lemma len_lit2 : (lstr " (").length = 2 := rfl
lemma len_lit3 : (lstr ")").length = 1 := rfl
lemma len_lit4 : (lstr "- Timestamp: ").length = 13 := rfl
lemma len_lit5 : (lstr "- Channel: ").length = 11 := rfl
lemma len_lit6 : (lstr "- Sender: ").length = 10 := rfl
lemma len_lit7 : (lstr "- Message ID: ").length = 14 := rfl
lemma len_lit8 : (lstr "## User").length = 7 := rfl
lemma len_lit9 : (lstr "## Assistant").length = 12 := rfl

/-- The tail of the written content from the assistant section header on. -/
def turnTail2 (a : List Char) : List Char :=
  '\n' :: (lstr "## Assistant" ++ ('\n' :: '\n' :: (a ++ ['\n'])))

/-- The tail of the written content from the user section header on. -/
def turnMid1 (u a : List Char) : List Char :=
  '\n' :: (lstr "## User" ++ ('\n' :: '\n' :: (u ++ ('\n' :: turnTail2 a))))

/-- The written content up to (and including) the newline that terminates
the message-id line. -/
def turnPre1 (agentId name channel sender messageId tsIso : List Char) : List Char :=
  lstr "# Turn for @" ++ (agentId ++ (lstr " (" ++ (name ++ (lstr ")" ++
  ('\n' :: '\n' :: (lstr "- Timestamp: " ++ (tsIso ++
  ('\n' :: (lstr "- Channel: " ++ (channel ++
  ('\n' :: (lstr "- Sender: " ++ (sender ++
  ('\n' :: (lstr "- Message ID: " ++ (messageId ++ ['\n']))))))))))))))))

/-- The written content up to (and including) the newline that terminates
the user text line. -/
def turnPre2 (agentId name channel sender messageId tsIso u : List Char) : List Char :=
  lstr "# Turn for @" ++ (agentId ++ (lstr " (" ++ (name ++ (lstr ")" ++
  ('\n' :: '\n' :: (lstr "- Timestamp: " ++ (tsIso ++
  ('\n' :: (lstr "- Channel: " ++ (channel ++
  ('\n' :: (lstr "- Sender: " ++ (sender ++
  ('\n' :: (lstr "- Message ID: " ++ (messageId ++
  ('\n' :: '\n' :: (lstr "## User" ++
  ('\n' :: '\n' :: (u ++ ['\n']))))))))))))))))))))

/-- The written content in fully right-associated form. -/
def turnFlat (agentId name channel sender messageId tsIso u a : List Char) : List Char :=
  lstr "# Turn for @" ++ (agentId ++ (lstr " (" ++ (name ++ (lstr ")" ++
  ('\n' :: '\n' :: (lstr "- Timestamp: " ++ (tsIso ++
  ('\n' :: (lstr "- Channel: " ++ (channel ++
  ('\n' :: (lstr "- Sender: " ++ (sender ++
  ('\n' :: (lstr "- Message ID: " ++ (messageId ++
  ('\n' :: '\n' :: (lstr "## User" ++
  ('\n' :: '\n' :: (u ++
  ('\n' :: '\n' :: (lstr "## Assistant" ++
  ('\n' :: '\n' :: (a ++ ['\n']))))))))))))))))))))))))

/-- The written content equals the right-associated form (texts within the
length caps, so no truncation marker appears). -/
lemma turnFileContent_eq (agentId name channel sender messageId tsIso u a : List Char)
    (hulen : u.length ≤ 16000) (halen : a.length ≤ 16000) :
    turnFileContent agentId name channel sender messageId tsIso u a =
      turnFlat agentId name channel sender messageId tsIso u a := by
  unfold turnFileContent truncate turnFlat
  rw [if_pos hulen, if_pos halen]
  simp [List.intercalate, List.intersperse, List.append_assoc,
    show lstr "\n" = ['\n'] from rfl]

lemma turnFlat_split1 (agentId name channel sender messageId tsIso u a : List Char) :
    turnFlat agentId name channel sender messageId tsIso u a =
      turnPre1 agentId name channel sender messageId tsIso ++ turnMid1 u a := by
  simp [turnFlat, turnPre1, turnMid1, turnTail2, List.append_assoc]

lemma turnFlat_split2 (agentId name channel sender messageId tsIso u a : List Char) :
    turnFlat agentId name channel sender messageId tsIso u a =
      turnPre2 agentId name channel sender messageId tsIso u ++ turnTail2 a := by
  simp [turnFlat, turnPre2, turnTail2, List.append_assoc]

lemma len_pre1 (agentId name channel sender messageId tsIso : List Char) :
    (turnPre1 agentId name channel sender messageId tsIso).length =
      69 + agentId.length + name.length + tsIso.length + channel.length +
        sender.length + messageId.length := by
  simp only [turnPre1, List.length_append, List.length_cons, List.length_singleton,
    List.length_nil, len_lit1, len_lit2, len_lit3, len_lit4, len_lit5, len_lit6,
    len_lit7]
  omega

lemma len_pre2 (agentId name channel sender messageId tsIso u : List Char) :
    (turnPre2 agentId name channel sender messageId tsIso u).length =
      80 + agentId.length + name.length + tsIso.length + channel.length +
        sender.length + messageId.length + u.length := by
  simp only [turnPre2, List.length_append, List.length_cons, List.length_singleton,
    List.length_nil, len_lit1, len_lit2, len_lit3, len_lit4, len_lit5, len_lit6,
    len_lit7, len_lit8]
  omega

lemma turnFlat_drop1 (agentId name channel sender messageId tsIso u a : List Char) :
    (turnFlat agentId name channel sender messageId tsIso u a).drop
        ((69 + agentId.length + name.length + tsIso.length + channel.length +
          sender.length + messageId.length) + 9) =
      '\n' :: (u ++ ('\n' :: turnTail2 a)) := by
  rw [turnFlat_split1,
    drop_of_len _ _ _ 9 (len_pre1 agentId name channel sender messageId tsIso).symm]
  rfl

lemma turnFlat_drop2 (agentId name channel sender messageId tsIso u a : List Char) :
    (turnFlat agentId name channel sender messageId tsIso u a).drop
        ((80 + agentId.length + name.length + tsIso.length + channel.length +
          sender.length + messageId.length + u.length) + 14) =
      '\n' :: (a ++ ['\n']) := by
  rw [turnFlat_split2,
    drop_of_len _ _ _ 14 (len_pre2 agentId name channel sender messageId tsIso u).symm]
  rfl

/-- C8 counterexample: the parse trims each section, so a user text with
trailing whitespace does not round-trip — writing user text `a ` (with a
trailing space) and assistant text `b` parses back to user `a`. -/
theorem turnRoundTrip_cex :
    parseTurnSections (turnFileContent (lstr "ag") (lstr "n") (lstr "c")
        (lstr "s") (lstr "m") (lstr "t") (lstr "a ") (lstr "b")) ≠
        { user := lstr "a ", assistant := lstr "b" } ∧
      parseTurnSections (turnFileContent (lstr "ag") (lstr "n") (lstr "c")
        (lstr "s") (lstr "m") (lstr "t") (lstr "a ") (lstr "b")) =
        { user := lstr "a", assistant := lstr "b" } := by
  constructor
  · decide
  · decide

/-- C8 amended: the round-trip holds for section texts that are trim-stable
(parsing trims each section), contain no newline (a user text containing
the literal assistant marker line would split early), are within the
16000-character caps (so no truncation marker is appended), with the user
text not equal to the assistant section header line, and newline-free
header parameters. -/
theorem turnRoundTrip_amended
    (agentId name channel sender messageId tsIso u a : List Char)
    (hid : '\n' ∉ agentId) (hname : '\n' ∉ name) (hch : '\n' ∉ channel)
    (hsd : '\n' ∉ sender) (hmid : '\n' ∉ messageId) (hts : '\n' ∉ tsIso)
    (hu : '\n' ∉ u) (ha : '\n' ∉ a)
    (hut : trimChars u = u) (hat : trimChars a = a)
    (hua : u ≠ lstr "## Assistant")
    (hulen : u.length ≤ 16000) (halen : a.length ≤ 16000) :
    parseTurnSections (turnFileContent agentId name channel sender messageId tsIso u a) =
      { user := u, assistant := a } := by
  rw [turnFileContent_eq agentId name channel sender messageId tsIso u a hulen halen]
  have hfu : indexOfSub
      (turnFlat agentId name channel sender messageId tsIso u a)
      userMarker =
      some (69 + agentId.length + name.length + tsIso.length + channel.length +
        sender.length + messageId.length) := by
    rw [show userMarker = '\n' :: lstr "## User\n" from rfl]
    simp only [turnFlat]
    rw [fm_append (lstr "# Turn for @") _ _ (by decide)]
    rw [fm_append agentId _ _ hid]
    rw [fm_append (lstr " (") _ _ (by decide)]
    rw [fm_append name _ _ hname]
    rw [fm_append (lstr ")") _ _ (by decide)]
    rw [fm_cons_step _ _ (by
      rw [show lstr "## User\n" = '#' :: lstr "# User\n" from rfl]
      exact not_prefix_head (by decide) _ _)]
    rw [fm_cons_step _ _ (by
      rw [show lstr "## User\n" = '#' :: lstr "# User\n" from rfl,
        show lstr "- Timestamp: " = '-' :: lstr " Timestamp: " from rfl,
        List.cons_append]
      exact not_prefix_head (by decide) _ _)]
    rw [fm_append (lstr "- Timestamp: ") _ _ (by decide)]
    rw [fm_append tsIso _ _ hts]
    rw [fm_cons_step _ _ (by
      rw [show lstr "## User\n" = '#' :: lstr "# User\n" from rfl,
        show lstr "- Channel: " = '-' :: lstr " Channel: " from rfl,
        List.cons_append]
      exact not_prefix_head (by decide) _ _)]
    rw [fm_append (lstr "- Channel: ") _ _ (by decide)]
    rw [fm_append channel _ _ hch]
    rw [fm_cons_step _ _ (by
      rw [show lstr "## User\n" = '#' :: lstr "# User\n" from rfl,
        show lstr "- Sender: " = '-' :: lstr " Sender: " from rfl,
        List.cons_append]
      exact not_prefix_head (by decide) _ _)]
    rw [fm_append (lstr "- Sender: ") _ _ (by decide)]
    rw [fm_append sender _ _ hsd]
    rw [fm_cons_step _ _ (by
      rw [show lstr "## User\n" = '#' :: lstr "# User\n" from rfl,
        show lstr "- Message ID: " = '-' :: lstr " Message ID: " from rfl,
        List.cons_append]
      exact not_prefix_head (by decide) _ _)]
    rw [fm_append (lstr "- Message ID: ") _ _ (by decide)]
    rw [fm_append messageId _ _ hmid]
    rw [fm_cons_step _ _ (by
      rw [show lstr "## User\n" = '#' :: lstr "# User\n" from rfl]
      exact not_prefix_head (by decide) _ _)]
    rw [fm_cons_hit _ _ (by
      rw [show lstr "## User\n" = lstr "## User" ++ ['\n'] from rfl]
      exact prefix_pad _ _ _)]
    simp only [Option.map_some', Option.some.injEq, len_lit1, len_lit2, len_lit3,
      len_lit4, len_lit5, len_lit6, len_lit7]
    omega
  have hfa : indexOfSub
      (turnFlat agentId name channel sender messageId tsIso u a)
      assistantMarker =
      some (80 + agentId.length + name.length + tsIso.length + channel.length +
        sender.length + messageId.length + u.length) := by
    rw [show assistantMarker = '\n' :: lstr "## Assistant\n" from rfl]
    simp only [turnFlat]
    rw [fm_append (lstr "# Turn for @") _ _ (by decide)]
    rw [fm_append agentId _ _ hid]
    rw [fm_append (lstr " (") _ _ (by decide)]
    rw [fm_append name _ _ hname]
    rw [fm_append (lstr ")") _ _ (by decide)]
    rw [fm_cons_step _ _ (by
      rw [show lstr "## Assistant\n" = '#' :: lstr "# Assistant\n" from rfl]
      exact not_prefix_head (by decide) _ _)]
    rw [fm_cons_step _ _ (by
      rw [show lstr "## Assistant\n" = '#' :: lstr "# Assistant\n" from rfl,
        show lstr "- Timestamp: " = '-' :: lstr " Timestamp: " from rfl,
        List.cons_append]
      exact not_prefix_head (by decide) _ _)]
    rw [fm_append (lstr "- Timestamp: ") _ _ (by decide)]
    rw [fm_append tsIso _ _ hts]
    rw [fm_cons_step _ _ (by
      rw [show lstr "## Assistant\n" = '#' :: lstr "# Assistant\n" from rfl,
        show lstr "- Channel: " = '-' :: lstr " Channel: " from rfl,
        List.cons_append]
      exact not_prefix_head (by decide) _ _)]
    rw [fm_append (lstr "- Channel: ") _ _ (by decide)]
    rw [fm_append channel _ _ hch]
    rw [fm_cons_step _ _ (by
      rw [show lstr "## Assistant\n" = '#' :: lstr "# Assistant\n" from rfl,
        show lstr "- Sender: " = '-' :: lstr " Sender: " from rfl,
        List.cons_append]
      exact not_prefix_head (by decide) _ _)]
    rw [fm_append (lstr "- Sender: ") _ _ (by decide)]
    rw [fm_append sender _ _ hsd]
    rw [fm_cons_step _ _ (by
      rw [show lstr "## Assistant\n" = '#' :: lstr "# Assistant\n" from rfl,
        show lstr "- Message ID: " = '-' :: lstr " Message ID: " from rfl,
        List.cons_append]
      exact not_prefix_head (by decide) _ _)]
    rw [fm_append (lstr "- Message ID: ") _ _ (by decide)]
    rw [fm_append messageId _ _ hmid]
    rw [fm_cons_step _ _ (by
      rw [show lstr "## Assistant\n" = '#' :: lstr "# Assistant\n" from rfl]
      exact not_prefix_head (by decide) _ _)]
    rw [fm_cons_step _ _ (by
      rw [show lstr "## Assistant\n" = lstr "## Assistant" ++ ['\n'] from rfl]
      exact not_prefix_pad (lstr "## User") (lstr "## Assistant")
        (by decide) (by decide) (by decide) _)]
    rw [fm_append (lstr "## User") _ _ (by decide)]
    rw [fm_cons_step _ _ (by
      rw [show lstr "## Assistant\n" = '#' :: lstr "# Assistant\n" from rfl]
      exact not_prefix_head (by decide) _ _)]
    rw [fm_cons_step _ _ (by
      rw [show lstr "## Assistant\n" = lstr "## Assistant" ++ ['\n'] from rfl]
      exact not_prefix_pad u (lstr "## Assistant") (by decide) hu hua _)]
    rw [fm_append u _ _ hu]
    rw [fm_cons_step _ _ (by
      rw [show lstr "## Assistant\n" = '#' :: lstr "# Assistant\n" from rfl]
      exact not_prefix_head (by decide) _ _)]
    rw [fm_cons_hit _ _ (by
      rw [show lstr "## Assistant\n" = lstr "## Assistant" ++ ['\n'] from rfl]
      exact prefix_pad _ _ _)]
    simp only [Option.map_some', Option.some.injEq, len_lit1, len_lit2, len_lit3,
      len_lit4, len_lit5, len_lit6, len_lit7, len_lit8]
    omega
  rw [parseTurnSections_eq_of hfu hfa (by omega)]
  rw [turnFlat_drop1 agentId name channel sender messageId tsIso u a]
  rw [show (80 + agentId.length + name.length + tsIso.length + channel.length +
      sender.length + messageId.length + u.length) -
      ((69 + agentId.length + name.length + tsIso.length + channel.length +
        sender.length + messageId.length) + 9) = u.length + 2 by omega]
  rw [show u.length + 2 = (u.length + 1) + 1 from rfl, List.take_succ_cons,
    List.take_append, show (1 : Nat) = 0 + 1 from rfl, List.take_succ_cons,
    List.take_zero]
  rw [trim_wrap u hut]
  rw [turnFlat_drop2 agentId name channel sender messageId tsIso u a]
  rw [trim_wrap a hat]

/-- C8 witness: concrete instance of the amended round-trip. -/
theorem turnRoundTrip_amended_witness :
    parseTurnSections (turnFileContent (lstr "ag") (lstr "n") (lstr "c")
        (lstr "s") (lstr "m") (lstr "t") (lstr "hello") (lstr "world")) =
      { user := lstr "hello", assistant := lstr "world" } :=
  turnRoundTrip_amended (lstr "ag") (lstr "n") (lstr "c") (lstr "s") (lstr "m")
    (lstr "t") (lstr "hello") (lstr "world") (by decide) (by decide) (by decide)
    (by decide) (by decide) (by decide) (by decide) (by decide) (by decide)
    (by decide) (by decide) (by decide) (by decide)

/-- A settings object whose `memory.qmd` section is absent: every `qmd`
field takes its default. -/
def settingsNoQmd : Settings :=
  { memory := some { enabled := JsVal.bool true, qmd := none } }

/-- C4 counterexample: with memory enabled but no `qmd` section, the resolved
`minScore` is exactly `0` — the claim that every numeric field of the
resolved configuration is never zero or negative fails at `minScore`, which
is not clamped and defaults to `0`. -/
theorem getQmdConfig_minScore_cex :
    (getQmdConfig settingsNoQmd).minScore = 0 ∧
      (getQmdConfig settingsNoQmd).enabled = true := by
  constructor <;> rfl

/-- C4 amended: every numeric field of the resolved configuration other than
`minScore` is clamped to a positive floor (`topK ≥ 1`, `maxChars ≥ 500`,
`updateIntervalSeconds ≥ 10`, `precheckTimeoutMs ≥ 100`,
`searchTimeoutMs ≥ 500`, `vectorSearchTimeoutMs ≥ 1000`); `minScore` is taken
unclamped and defaults to `0`. -/
theorem getQmdConfig_floors_amended (s : Settings) :
    1 ≤ (getQmdConfig s).topK ∧ 500 ≤ (getQmdConfig s).maxChars ∧
      10 ≤ (getQmdConfig s).updateIntervalSeconds ∧
      100 ≤ (getQmdConfig s).precheckTimeoutMs ∧
      500 ≤ (getQmdConfig s).searchTimeoutMs ∧
      1000 ≤ (getQmdConfig s).vectorSearchTimeoutMs := by
  unfold getQmdConfig
  refine ⟨?_, ?_, ?_, ?_, ?_, ?_⟩ <;> dsimp only <;> split <;>
    first
      | exact le_max_left _ _
      | norm_num [DEFAULT_TOP_K, DEFAULT_MAX_CHARS, DEFAULT_UPDATE_INTERVAL_SECONDS,
          DEFAULT_PRECHECK_TIMEOUT_MS, DEFAULT_TEXT_SEARCH_TIMEOUT_MS,
          DEFAULT_VECTOR_SEARCH_TIMEOUT_MS]

/-! ### The enrichment pipeline (`enrichMessageWithMemory`, memory.ts:516-611)

The backend process (`qmd`) and the clock are modelled by an environment
`QmdEnv`: `runCmd cmd args timeoutMs expansionEnv` is the outcome of one
`runCommand` spawn (memory.ts:124-168) - `Except.error` models a rejected
promise carrying the error message (nonzero exit, spawn error or timeout),
`Except.ok` the resolved stdout; `expansionEnv` records whether
`QMD_VSEARCH_DISABLE_EXPANSION` is set in the child environment.  The
process-wide mutable module state (memory.ts:19-29) is an explicit
`MemState` record threaded through the call. -/

structure QmdEnv where
  homedir : List Char
  nowMs : ℤ
  runCmd : List Char → List (List Char) → ℚ → Bool → Except (List Char) (List Char)

structure MemState where
  qmdChecked : Bool
  qmdCheckKey : List Char
  qmdAvailable : Bool
  qmdCommandPath : Option (List Char)
  qmdDisableExpansionCheckKey : List Char
  qmdDisableExpansionSupported : Bool
  collectionPrepared : List (List Char)
  lastCollectionUpdateMs : List (List Char × ℤ)

/-- The initial module state (memory.ts:19-29). -/
def initialMemState : MemState :=
  { qmdChecked := false, qmdCheckKey := [], qmdAvailable := false
    qmdCommandPath := none, qmdDisableExpansionCheckKey := []
    qmdDisableExpansionSupported := false, collectionPrepared := []
    lastCollectionUpdateMs := [] }

/-- `qmdCommandPath || 'qmd'`. -/
def cmdPath (st : MemState) : List Char := st.qmdCommandPath.getD (lstr "qmd")

/-- `Map.prototype.get` on the last-update map (`undefined` models as `none`;
the most recent `set` wins). -/
def mapGetZ (m : List (List Char × ℤ)) (k : List Char) : Option ℤ :=
  (m.find? (fun p => p.1 = k)).map (·.2)

/-- The candidate probe loop of `isQmdAvailable` (memory.ts:185-194). -/
def probeCandidates (env : QmdEnv) (st : MemState) : List (List Char) → Bool × MemState
  | [] => (false, st)
  | c :: rest =>
    match env.runCmd c [lstr "--help"] 5000 false with
    | .ok _ => (true, { st with qmdAvailable := true, qmdCommandPath := some c })
    | .error _ => probeCandidates env st rest

/-- `isQmdAvailable(preferredCommand)` (memory.ts:170-202). -/
def isQmdAvailable (env : QmdEnv) (st : MemState) (preferredCommand : Option (List Char)) :
    Bool × MemState :=
  let key := match preferredCommand with
    | some c => if c = [] then lstr "__auto__" else c
    | none => lstr "__auto__"
  if st.qmdChecked && st.qmdCheckKey = key then (st.qmdAvailable, st)
  else
    let st1 := { st with
      qmdChecked := true
      qmdCheckKey := key
      qmdAvailable := false
      qmdCommandPath := none }
    let bundledQmd := pathJoin env.homedir (lstr ".bun/bin/qmd")
    let candidates := match preferredCommand with
      | some c => if c = [] then [bundledQmd, lstr "qmd"] else [c]
      | none => [bundledQmd, lstr "qmd"]
    probeCandidates env st1 candidates

/-- `isDisableExpansionPatchedQmd(commandPath)` (memory.ts:204-221). -/
def isDisableExpansionPatchedQmd (fs : FsEnv) (homedir : List Char)
    (commandPath : Option (List Char)) : Bool :=
  match commandPath with
  | none => false
  | some p =>
    if p ≠ pathJoin homedir (lstr ".bun/bin/qmd")
        || !fs.fileExists (pathJoin homedir
          (lstr ".bun/install/global/node_modules/qmd/src/store.ts")) then false
    else
      match fs.readFileSync (pathJoin homedir
        (lstr ".bun/install/global/node_modules/qmd/src/store.ts")) with
      | .ok src => containsSub src (lstr "QMD_VSEARCH_DISABLE_EXPANSION")
      | .error _ => false

/-- `isDisableExpansionSupported()` (memory.ts:223-232). -/
def isDisableExpansionSupported (fs : FsEnv) (env : QmdEnv) (st : MemState) : Bool :=
  if st.qmdDisableExpansionCheckKey = st.qmdCommandPath.getD (lstr "__unknown__") then
    st.qmdDisableExpansionSupported
  else isDisableExpansionPatchedQmd fs env.homedir st.qmdCommandPath

/-- `ensureCollection(agentId)` (memory.ts:238-259).  The `ensureDir` calls
only create directories and have no bearing on the returned value. -/
def ensureCollection (env : QmdEnv) (fs : FsEnv) (st : MemState) (agentId : List Char) :
    Except (List Char) (List Char × MemState) :=
  if st.collectionPrepared.contains (getCollectionName agentId) then
    .ok (getCollectionName agentId, st)
  else
    match env.runCmd (cmdPath st)
      [lstr "collection", lstr "add", getAgentTurnsDir fs agentId,
       lstr "--name", getCollectionName agentId, lstr "--mask", lstr "**/*.md"]
      10000 false with
    | .ok _ =>
      .ok (getCollectionName agentId,
        { st with collectionPrepared := getCollectionName agentId :: st.collectionPrepared })
    | .error e =>
      if containsSub (lowerList e) (lstr "already")
          || containsSub (lowerList e) (lstr "exists") then
        .ok (getCollectionName agentId,
          { st with collectionPrepared := getCollectionName agentId :: st.collectionPrepared })
      else .error e

/-- `maybeUpdateCollection(collectionName, updateIntervalSeconds)`
(memory.ts:261-269), a single call against the explicit state (the iterated
behaviour is studied separately via `mucRun`). -/
def maybeUpdateCollection (env : QmdEnv) (st : MemState) (collectionName : List Char)
    (updateIntervalSeconds : ℚ) : Except (List Char) MemState :=
  if (((env.nowMs - (mapGetZ st.lastCollectionUpdateMs collectionName).getD 0 : ℤ)) : ℚ) <
      updateIntervalSeconds * 1000 then .ok st
  else
    match env.runCmd (cmdPath st) [lstr "update", lstr "--collections", collectionName]
        15000 false with
    | .ok _ => .ok { st with lastCollectionUpdateMs :=
        (collectionName, env.nowMs) :: st.lastCollectionUpdateMs }
    | .error e => .error e

/-- The query loop of `quickHasLexicalHit` (memory.ts:425-432). -/
def quickHitLoop (env : QmdEnv) (st : MemState) (collectionName : List Char)
    (qmdCfg : QmdConfig) : List (List Char) → Except (List Char) Bool
  | [] => .ok false
  | query :: rest =>
    match env.runCmd (cmdPath st)
      [lstr "search", query, lstr "--json", lstr "-c", collectionName,
       lstr "-n", lstr "1", lstr "--min-score", jsNumToString qmdCfg.minScore]
      qmdCfg.precheckTimeoutMs false with
    | .error e => .error e
    | .ok stdout =>
      match parseQmdResults stdout with
      | .error e => .error e
      | .ok hits =>
        if hits.length > 0 then .ok true
        else quickHitLoop env st collectionName qmdCfg rest

/-- `quickHasLexicalHit(message, collectionName, qmdCfg)` (memory.ts:423-434). -/
def quickHasLexicalHit (env : QmdEnv) (st : MemState) (message collectionName : List Char)
    (qmdCfg : QmdConfig) : Except (List Char) Bool :=
  quickHitLoop env st collectionName qmdCfg (buildLexicalQueryVariants message)

/-- The query loop of `runBm25WithVariants` (memory.ts:504-512), carrying
`lastQuery`. -/
def bm25Loop (env : QmdEnv) (st : MemState) (collectionName : List Char)
    (qmdCfg : QmdConfig) : List (List Char) → List Char →
    Except (List Char) (List QmdResult × List Char)
  | [], lastQuery => .ok ([], lastQuery)
  | query :: rest, _ =>
    match env.runCmd (cmdPath st)
      [lstr "search", query, lstr "--json", lstr "-c", collectionName,
       lstr "-n", jsNumToString qmdCfg.topK, lstr "--min-score",
       jsNumToString qmdCfg.minScore]
      qmdCfg.searchTimeoutMs false with
    | .error e => .error e
    | .ok stdout =>
      match parseQmdResults stdout with
      | .error e => .error e
      | .ok results =>
        if results.length > 0 then .ok (results, query)
        else bm25Loop env st collectionName qmdCfg rest query

/-- `runBm25WithVariants(message, collectionName, qmdCfg)` (memory.ts:497-514). -/
def runBm25WithVariants (env : QmdEnv) (st : MemState)
    (message collectionName : List Char) (qmdCfg : QmdConfig) :
    Except (List Char) (List QmdResult × List Char) :=
  bm25Loop env st collectionName qmdCfg (buildLexicalQueryVariants message) message

/-- The main retrieval query (memory.ts:567-588): mode resolution, then the
`vsearch` invocation (with `QMD_VSEARCH_DISABLE_EXPANSION` set in the child
environment when expansion disabling is configured) or the BM25 variant
loop, and result parsing. -/
def primaryQuery (env : QmdEnv) (fs : FsEnv) (st : MemState)
    (message collectionName : List Char) (qmdCfg : QmdConfig) :
    Except (List Char) (List QmdResult × List Char) :=
  if (resolveRetrievalMode qmdCfg (isDisableExpansionSupported fs env st)).useVsearch then
    match env.runCmd (cmdPath st)
      [lstr "vsearch", message, lstr "--json", lstr "-c", collectionName,
       lstr "-n", jsNumToString qmdCfg.topK, lstr "--min-score",
       jsNumToString qmdCfg.minScore]
      qmdCfg.vectorSearchTimeoutMs qmdCfg.disableQueryExpansion with
    | .error e => .error e
    | .ok stdout =>
      match parseQmdResults stdout with
      | .error e => .error e
      | .ok results => .ok (results, message)
  else runBm25WithVariants env st message collectionName qmdCfg

/-- The tail of the `try` block after the precheck (memory.ts:567-605). -/
def enrichQuery (env : QmdEnv) (fs : FsEnv) (st : MemState)
    (agentId message collectionName : List Char) (qmdCfg : QmdConfig) :
    Except (List Char) (List Char) :=
  match primaryQuery env fs st message collectionName qmdCfg with
  | .error e => .error e
  | .ok (results, _) =>
    if results.length = 0 then .ok message
    else
      match rerankAndHydrateResults fs results message agentId with
      | .error e => .error e
      | .ok rankedResults =>
        if formatMemoryPrompt rankedResults qmdCfg.maxChars = [] then .ok message
        else .ok (message ++ formatMemoryPrompt rankedResults qmdCfg.maxChars)

/-- The body of the `try` block (memory.ts:541-605).  `Except.error` is a
raised exception reaching the outer `catch`; the precheck has its own inner
`catch`, and both the no-hit and the caught-error precheck paths return the
original message. -/
def enrichTryBody (env : QmdEnv) (fs : FsEnv) (st : MemState)
    (agentId message : List Char) (qmdCfg : QmdConfig) :
    Except (List Char) (List Char) :=
  match ensureCollection env fs st agentId with
  | .error e => .error e
  | .ok (collectionName, st1) =>
    match maybeUpdateCollection env st1 collectionName qmdCfg.updateIntervalSeconds with
    | .error e => .error e
    | .ok st2 =>
      if qmdCfg.quickPrecheckEnabled then
        match quickHasLexicalHit env st2 message collectionName qmdCfg with
        | .error _ => .ok message
        | .ok false => .ok message
        | .ok true => enrichQuery env fs st2 agentId message collectionName qmdCfg
      else enrichQuery env fs st2 agentId message collectionName qmdCfg

/-- `enrichMessageWithMemory` for an already-resolved configuration
(memory.ts:522-610 after the `getQmdConfig` call). -/
def enrichWithConfig (env : QmdEnv) (fs : FsEnv) (st : MemState)
    (agentId message : List Char) (qmdCfg : QmdConfig) (sourceChannel : List Char) :
    List Char :=
  if !qmdCfg.enabled then message
  else if !shouldUseMemoryForChannel sourceChannel then message
  else if !(isQmdAvailable env st qmdCfg.command).1 then message
  else
    match enrichTryBody env fs (isQmdAvailable env st qmdCfg.command).2
        agentId message qmdCfg with
    | .ok s => s
    | .error _ => message

/-- `enrichMessageWithMemory(agentId, message, settings, sourceChannel)`
(memory.ts:516-611). -/
def enrichMessageWithMemory (env : QmdEnv) (fs : FsEnv) (st : MemState)
    (agentId message : List Char) (settings : Settings) (sourceChannel : List Char) :
    List Char :=
  enrichWithConfig env fs st agentId message (getQmdConfig settings) sourceChannel

lemma memoryPreamble_append_ne_nil (x : List Char) : memoryPreamble ++ x ≠ [] := by
  intro hc
  have hlen : (memoryPreamble ++ x).length = 0 := by rw [hc]; rfl
  rw [List.length_append, show memoryPreamble.length = 135 by decide] at hlen
  omega

/-- A nonempty prompt starts with the fixed preamble. -/
lemma formatMemoryPrompt_shape (rs : List QmdResult) (maxChars : ℚ) :
    formatMemoryPrompt rs maxChars = [] ∨
      ∃ x, formatMemoryPrompt rs maxChars = memoryPreamble ++ x := by
  unfold formatMemoryPrompt
  by_cases h0 : rs = []
  · rw [if_pos h0]
    exact Or.inl rfl
  · rw [if_neg h0]
    by_cases h1 : takeBlocks maxChars 0 0 rs = []
    · rw [if_pos h1]
      exact Or.inl rfl
    · rw [if_neg h1]
      exact Or.inr ⟨_, intercalate_prompt _⟩

/-- A normal return of the post-precheck tail is the original message or the
message followed by a preamble-headed block. -/
lemma enrichQuery_shape (env : QmdEnv) (fs : FsEnv) (st : MemState)
    (agentId message collectionName : List Char) (qmdCfg : QmdConfig) :
    ∀ s, enrichQuery env fs st agentId message collectionName qmdCfg = .ok s →
      s = message ∨ ∃ x, s = message ++ (memoryPreamble ++ x) := by
  unfold enrichQuery
  cases primaryQuery env fs st message collectionName qmdCfg with
  | error e => intro s h; exact absurd h (by simp)
  | ok pr =>
    obtain ⟨results, q⟩ := pr
    dsimp only
    by_cases hres : results.length = 0
    · rw [if_pos hres]
      intro s h
      exact Or.inl (Except.ok.inj h).symm
    · rw [if_neg hres]
      cases rerankAndHydrateResults fs results message agentId with
      | error e => intro s h; exact absurd h (by simp)
      | ok rankedResults =>
        dsimp only
        by_cases hb : formatMemoryPrompt rankedResults qmdCfg.maxChars = []
        · rw [if_pos hb]
          intro s h
          exact Or.inl (Except.ok.inj h).symm
        · rw [if_neg hb]
          intro s h
          rcases formatMemoryPrompt_shape rankedResults qmdCfg.maxChars with h0 | ⟨x, hx⟩
          · exact absurd h0 hb
          · refine Or.inr ⟨x, ?_⟩
            rw [← (Except.ok.inj h), hx]

/-- A normal return of the whole `try` body is the original message or the
message followed by a preamble-headed block. -/
lemma enrichTryBody_ok_shape (env : QmdEnv) (fs : FsEnv) (st : MemState)
    (agentId message : List Char) (qmdCfg : QmdConfig) :
    ∀ s, enrichTryBody env fs st agentId message qmdCfg = .ok s →
      s = message ∨ ∃ x, s = message ++ (memoryPreamble ++ x) := by
  unfold enrichTryBody
  cases ensureCollection env fs st agentId with
  | error e => intro s h; exact absurd h (by simp)
  | ok p =>
    obtain ⟨collectionName, st1⟩ := p
    dsimp only
    cases maybeUpdateCollection env st1 collectionName qmdCfg.updateIntervalSeconds with
    | error e => intro s h; exact absurd h (by simp)
    | ok st2 =>
      dsimp only
      by_cases hp : qmdCfg.quickPrecheckEnabled = true
      · rw [if_pos hp]
        cases quickHasLexicalHit env st2 message collectionName qmdCfg with
        | error e => intro s h; exact Or.inl (Except.ok.inj h).symm
        | ok b =>
          cases b with
          | false => intro s h; exact Or.inl (Except.ok.inj h).symm
          | true => exact enrichQuery_shape env fs st2 agentId message collectionName qmdCfg
      · rw [if_neg hp]
        exact enrichQuery_shape env fs st2 agentId message collectionName qmdCfg

/-- C10: the returned string always has the original message as a prefix —
it is either exactly the original message, or the original message followed
by a non-empty memory block that begins with the fixed separator and
preamble; the message text itself is never altered. -/
theorem enrich_prefix_preserved (env : QmdEnv) (fs : FsEnv) (st : MemState)
    (agentId message : List Char) (settings : Settings) (sourceChannel : List Char) :
    enrichMessageWithMemory env fs st agentId message settings sourceChannel = message ∨
      ∃ x, memoryPreamble ++ x ≠ [] ∧
        enrichMessageWithMemory env fs st agentId message settings sourceChannel =
          message ++ (memoryPreamble ++ x) := by
  unfold enrichMessageWithMemory enrichWithConfig
  by_cases h1 : (!(getQmdConfig settings).enabled) = true
  · rw [if_pos h1]
    exact Or.inl rfl
  · rw [if_neg h1]
    by_cases h2 : (!shouldUseMemoryForChannel sourceChannel) = true
    · rw [if_pos h2]
      exact Or.inl rfl
    · rw [if_neg h2]
      by_cases h3 : (!(isQmdAvailable env st (getQmdConfig settings).command).1) = true
      · rw [if_pos h3]
        exact Or.inl rfl
      · rw [if_neg h3]
        cases htb : enrichTryBody env fs
            (isQmdAvailable env st (getQmdConfig settings).command).2
            agentId message (getQmdConfig settings) with
        | error e => exact Or.inl rfl
        | ok s =>
          rcases enrichTryBody_ok_shape env fs
              (isQmdAvailable env st (getQmdConfig settings).command).2
              agentId message (getQmdConfig settings) s htb with hs | ⟨x, hx⟩
          · exact Or.inl hs
          · exact Or.inr ⟨x, memoryPreamble_append_ne_nil x, hx⟩

/-- C1: the enrichment entry point is fail-open — whenever memory is
disabled, the channel is not memory-eligible, the backend is unavailable,
any stage of the `try` body raises (collection registration or refresh
failure, search process error or timeout, malformed-output `TypeError`,
rerank `URIError`), or the quick precheck raises, the returned string is
exactly the original message. -/
theorem enrich_fail_open (env : QmdEnv) (fs : FsEnv) (st : MemState)
    (agentId message : List Char) (settings : Settings) (sourceChannel : List Char)
    (h : (getQmdConfig settings).enabled = false
       ∨ shouldUseMemoryForChannel sourceChannel = false
       ∨ (isQmdAvailable env st (getQmdConfig settings).command).1 = false
       ∨ (∃ e, enrichTryBody env fs (isQmdAvailable env st (getQmdConfig settings).command).2
            agentId message (getQmdConfig settings) = .error e)
       ∨ ((getQmdConfig settings).quickPrecheckEnabled = true ∧
          ∃ collectionName st2 e,
            ensureCollection env fs (isQmdAvailable env st (getQmdConfig settings).command).2
                agentId = .ok (collectionName, st2) ∧
            ∃ st3, maybeUpdateCollection env st2 collectionName
                (getQmdConfig settings).updateIntervalSeconds = .ok st3 ∧
              quickHasLexicalHit env st3 message collectionName (getQmdConfig settings) =
                .error e)) :
    enrichMessageWithMemory env fs st agentId message settings sourceChannel = message := by
  unfold enrichMessageWithMemory enrichWithConfig
  by_cases h1 : (!(getQmdConfig settings).enabled) = true
  · rw [if_pos h1]
  · rw [if_neg h1]
    by_cases h2 : (!shouldUseMemoryForChannel sourceChannel) = true
    · rw [if_pos h2]
    · rw [if_neg h2]
      by_cases h3 : (!(isQmdAvailable env st (getQmdConfig settings).command).1) = true
      · rw [if_pos h3]
      · rw [if_neg h3]
        rcases h with hen | hch | hav | ⟨e, he⟩ | ⟨hp, cn, st2, e, hens, st3, hupd, hq⟩
        · exact absurd (by rw [hen]; rfl) h1
        · exact absurd (by rw [hch]; rfl) h2
        · exact absurd (by rw [hav]; rfl) h3
        · rw [he]
        · have htb : enrichTryBody env fs
              (isQmdAvailable env st (getQmdConfig settings).command).2
              agentId message (getQmdConfig settings) = .ok message := by
            unfold enrichTryBody
            rw [hens]
            dsimp only
            rw [hupd]
            dsimp only
            rw [if_pos hp, hq]
          rw [htb]

/-- A backend environment in which every spawn rejects. -/
def wQmdEnv : QmdEnv :=
  { homedir := lstr "/home/u"
    nowMs := 0
    runCmd := fun _ _ _ _ => .error (lstr "spawn qmd ENOENT") }

/-- C1 witness: with memory absent from the settings the resolved
configuration is disabled and the message comes back unchanged. -/
theorem enrich_fail_open_witness :
    (getQmdConfig { memory := none }).enabled = false ∧
      enrichMessageWithMemory wQmdEnv cexFs initialMemState (lstr "ag") (lstr "hi")
        { memory := none } (lstr "discord") = lstr "hi" :=
  ⟨rfl, enrich_fail_open wQmdEnv cexFs initialMemState (lstr "ag") (lstr "hi")
    { memory := none } (lstr "discord") (Or.inl rfl)⟩

end TC
